import Mathlib

/-!
Shallow embedding of `src/bidirectional_counter.py` (class `BidirectionalCounter`
and dataclass `TrackInfo`) from the YoloConteo repository, together with proofs
about the crossing-detection and tracking logic.

Conventions of the embedding:
* centroid coordinates are `Int` (the detector computes them with integer
  division `(x1 + x2) // 2`);
* the relative line position is a rational `ℚ`; Python's `int(...)` truncation
  toward zero is `truncQ`;
* the Euclidean-distance comparison `sqrt d < 100` of the simple tracker is
  modelled exactly by the squared comparison `d < 100 ^ 2`, which is equivalent
  over the reals;
* Python dictionaries (`self.tracks`, `self.contadores`) are association lists
  in insertion order, with first-match lookup and in-place update, matching
  dict iteration-order semantics;
* the crossing callback `callback_cruce` is modelled by the flag
  `tiene_callback` plus a ghost log `eventos` that records every invocation
  with its arguments `(categoria, direccion, track_id)`.
Only the pure counting core is embedded; drawing and the optional external
DeepSort collaborator are out of scope of the claims.
-/

namespace YoloConteo

/-- Crossing directions (class `Direccion` in the source; the value
`NINGUNA` is never stored in a track and is omitted). -/
inductive Direccion where
  | izqDer
  | derIzq
  deriving DecidableEq, Repr

/-- Per-object tracking record (dataclass `TrackInfo`), with the source's
default field values. -/
structure TrackInfo where
  track_id : Nat
  categoria : String
  ultima_posicion_x : Int
  posicion_inicial_x : Int
  cruzado : Bool := false
  direccion_cruce : Option Direccion := none
  frames_vistos : Nat := 1
  historial_posiciones : List (Int × Int) := []
  ultimo_lado : String := "ninguno"
  puede_cruzar : Bool := true
  deriving DecidableEq, Repr

/-- The mutable state of a `BidirectionalCounter` instance (the fields of
`__init__` that the counting logic reads or writes). -/
structure CounterState where
  ancho_frame : Nat
  alto_frame : Nat
  margen_cruce : Nat
  linea_posicion_relativa : ℚ
  linea_x : Int
  categorias : List String
  contadores : List (String × Nat × Nat)
  tracks : List (Nat × TrackInfo)
  siguiente_track_id : Nat
  tiene_callback : Bool
  eventos : List (String × Direccion × Nat)
  deriving DecidableEq, Repr

/-- Python's `int(q)` on a rational: truncation toward zero. -/
def truncQ (q : ℚ) : Int :=
  if 0 ≤ q then ⌊q⌋ else ⌈q⌉

/-- First-match lookup in the track map (`self.tracks[track_id]` /
`track_id in self.tracks`). -/
def lookupTrack : List (Nat × TrackInfo) → Nat → Option TrackInfo
  | [], _ => none
  | e :: rest, tid => if e.1 = tid then some e.2 else lookupTrack rest tid

/-- In-place update of the first entry with the given key, as mutating a
dict value does in Python. -/
def modifyTrack : List (Nat × TrackInfo) → Nat → (TrackInfo → TrackInfo) →
    List (Nat × TrackInfo)
  | [], _, _ => []
  | e :: rest, tid, f =>
      if e.1 = tid then (e.1, f e.2) :: rest else e :: modifyTrack rest tid f

/-- First-match lookup in the counters dict (`self.contadores[categoria]`);
the value is the pair (izq_der count, der_izq count). -/
def lookupC : List (String × Nat × Nat) → String → Option (Nat × Nat)
  | [], _ => none
  | e :: rest, cat => if e.1 = cat then some e.2 else lookupC rest cat

/-- `self.contadores[categoria][...] += 1` for the given direction. -/
def incContador : List (String × Nat × Nat) → String → Direccion →
    List (String × Nat × Nat)
  | [], _, _ => []
  | e :: rest, cat, d =>
      if e.1 = cat then
        (match d with
          | Direccion.izqDer => (e.1, e.2.1 + 1, e.2.2)
          | Direccion.derIzq => (e.1, e.2.1, e.2.2 + 1)) :: rest
      else e :: incContador rest cat d

/-- The counter cell of a category, with the `{izq_der: 0, der_izq: 0}`
default used by `obtener_contador_categoria`. -/
def contadorDe (s : CounterState) (cat : String) : Nat × Nat :=
  (lookupC s.contadores cat).getD (0, 0)

/-- `historial_posiciones[-1]` (only used on nonempty histories; the default
is never reached there). -/
def ultimaPos (h : List (Int × Int)) : Int × Int :=
  h.getLastD (0, 0)

/-- `historial_posiciones[-2]` (only used on histories of length ≥ 2). -/
def penultimaPos (h : List (Int × Int)) : Int × Int :=
  h.dropLast.getLastD (0, 0)

/-- `historial_posiciones[-50:]` applied when the history exceeds 50 samples
(`_actualizar_track`). -/
def recortar (h : List (Int × Int)) : List (Int × Int) :=
  if 50 < h.length then h.drop (h.length - 50) else h

/-- `_inicializar_contadores`: a zero cell per category. -/
def inicializar_contadores (categorias : List String) :
    List (String × Nat × Nat) :=
  categorias.map (fun c => (c, 0, 0))

/-- The default category list of `__init__`. -/
def categoriasDefecto : List String :=
  ["adulto", "nino", "bicicleta", "silla_ruedas", "movilidad_reducida"]

/-- `__init__`: note that `linea_posicion_relativa` is stored as given,
without clamping, and `linea_x = int(ancho_frame * linea_posicion_relativa)`. -/
def mkCounter (ancho_frame alto_frame : Nat) (linea_posicion_relativa : ℚ)
    (margen_cruce : Nat) (categorias : List String) (tiene_callback : Bool) :
    CounterState :=
  { ancho_frame := ancho_frame
    alto_frame := alto_frame
    margen_cruce := margen_cruce
    linea_posicion_relativa := linea_posicion_relativa
    linea_x := truncQ (ancho_frame * linea_posicion_relativa)
    categorias := categorias
    contadores := inicializar_contadores categorias
    tracks := []
    siguiente_track_id := 1
    tiene_callback := tiene_callback
    eventos := [] }

/-- `actualizar_posicion_linea`: clamp to [0.1, 0.9], then recompute
`linea_x`. -/
def actualizar_posicion_linea (s : CounterState) (posicion_relativa : ℚ) :
    CounterState :=
  let r := max (1 / 10) (min (9 / 10) posicion_relativa)
  { s with linea_posicion_relativa := r
           linea_x := truncQ (s.ancho_frame * r) }

/-- `actualizar_dimensiones`: store the new frame size and recompute
`linea_x` from the stored relative position. -/
def actualizar_dimensiones (s : CounterState) (ancho alto : Nat) :
    CounterState :=
  { s with ancho_frame := ancho
           alto_frame := alto
           linea_x := truncQ (ancho * s.linea_posicion_relativa) }

/-- The `TrackInfo(...)` construction used at both track-creation sites
(`_procesar_con_tracker_simple` and the not-found branch of
`_actualizar_track`). -/
def nuevoTrack (tid : Nat) (categoria : String) (cx cy : Int) : TrackInfo :=
  { track_id := tid
    categoria := categoria
    ultima_posicion_x := cx
    posicion_inicial_x := cx
    historial_posiciones := [(cx, cy)] }

/-- The mutation applied to an existing track by `_actualizar_track`: append
the centroid (keeping the last 50 samples), bump `frames_vistos`.  The stored
`categoria` is NOT touched. -/
def avanceTrack (cx cy : Int) (t : TrackInfo) : TrackInfo :=
  { t with ultima_posicion_x := cx
           frames_vistos := t.frames_vistos + 1
           historial_posiciones := recortar (t.historial_posiciones ++ [(cx, cy)]) }

/-- `_actualizar_track`: create the track when absent; otherwise apply
`avanceTrack`. -/
def actualizar_track (s : CounterState) (tid : Nat) (categoria : String)
    (cx cy : Int) : CounterState :=
  match lookupTrack s.tracks tid with
  | none =>
      { s with tracks := s.tracks ++ [(tid, nuevoTrack tid categoria cx cy)] }
  | some _ =>
      { s with tracks := modifyTrack s.tracks tid (avanceTrack cx cy) }

/-- The track mutation of `_registrar_cruce`: `cruzado = True`,
`direccion_cruce = direccion`. -/
def sellarCruce (d : Direccion) (t : TrackInfo) : TrackInfo :=
  { t with cruzado := true, direccion_cruce := some d }

/-- The track mutation after a counted crossing in `_verificar_cruce`:
`puede_cruzar = False`, `ultimo_lado = lado`. -/
def desarmarTrack (lado : String) (t : TrackInfo) : TrackInfo :=
  { t with puede_cruzar := false, ultimo_lado := lado }

/-- The re-arming mutation of `_verificar_cruce`: `puede_cruzar = True`. -/
def armarTrack (t : TrackInfo) : TrackInfo :=
  { t with puede_cruzar := true }

/-- `_registrar_cruce`: set `cruzado` and `direccion_cruce`; if the track's
category has a counter cell, increment it and (when a callback is
configured) invoke the callback with `(categoria, direccion, track_id)`. -/
def registrar_cruce (s : CounterState) (tid : Nat) (d : Direccion) :
    CounterState :=
  match lookupTrack s.tracks tid with
  | none => s
  | some t =>
      let s1 := { s with tracks := modifyTrack s.tracks tid (sellarCruce d) }
      if (lookupC s1.contadores t.categoria).isSome then
        let s2 := { s1 with contadores := incContador s1.contadores t.categoria d }
        if s2.tiene_callback then
          { s2 with eventos := s2.eventos ++ [(t.categoria, d, tid)] }
        else s2
      else s1

/-- `_verificar_cruce`: decide crossings from the last two history samples;
re-arm `puede_cruzar` when no crossing geometry holds and the centroid is
farther than the margin from the line. -/
def verificar_cruce (s : CounterState) (tid : Nat) : CounterState :=
  match lookupTrack s.tracks tid with
  | none => s
  | some t =>
      if t.historial_posiciones.length < 2 then s
      else
        let prevX := (penultimaPos t.historial_posiciones).1
        let curX := (ultimaPos t.historial_posiciones).1
        let linea := s.linea_x
        if prevX < linea ∧ linea ≤ curX then
          if t.puede_cruzar then
            let s1 := registrar_cruce s tid Direccion.izqDer
            { s1 with tracks := modifyTrack s1.tracks tid (desarmarTrack "derecha") }
          else s
        else if linea < prevX ∧ curX ≤ linea then
          if t.puede_cruzar then
            let s1 := registrar_cruce s tid Direccion.derIzq
            { s1 with tracks := modifyTrack s1.tracks tid (desarmarTrack "izquierda") }
          else s
        else
          if s.margen_cruce < (curX - linea).natAbs then
            { s with tracks := modifyTrack s.tracks tid armarTrack }
          else s

/-- Squared Euclidean distance between centroids. -/
def distSq (cx cy ux uy : Int) : Int :=
  (cx - ux) ^ 2 + (cy - uy) ^ 2

/-- The squared 100-pixel gating threshold of `_encontrar_track_cercano`. -/
def umbralSq : Int := 10000

/-- One iteration of the loop of `_encontrar_track_cercano`; the accumulator
is `some (distancia_minima, track_encontrado)` or `none` for "infinity, no
candidate yet". -/
def pasoCercano (cx cy : Int) (categoria : String) (usados : List Nat)
    (acc : Option (Int × Nat)) (e : Nat × TrackInfo) : Option (Int × Nat) :=
  if e.1 ∈ usados then acc
  else if e.2.categoria ≠ categoria then acc
  else if e.2.historial_posiciones = [] then acc
  else
    let u := ultimaPos e.2.historial_posiciones
    let d := distSq cx cy u.1 u.2
    match acc with
    | none => if d < umbralSq then some (d, e.1) else none
    | some m => if d < m.1 ∧ d < umbralSq then some (d, e.1) else some m

/-- `_encontrar_track_cercano`: greedy scan of the track map in insertion
order for the nearest unclaimed same-category track within the threshold. -/
def encontrar_track_cercano (tracks : List (Nat × TrackInfo)) (cx cy : Int)
    (categoria : String) (usados : List Nat) : Option Nat :=
  (tracks.foldl (pasoCercano cx cy categoria usados) none).map (fun m => m.2)

/-- A detection as consumed by the simple tracker (`det['centro']`,
`det['categoria']`; the other fields are passed through untouched). -/
structure Deteccion where
  centro : Int × Int
  categoria : String
  deriving DecidableEq, Repr

/-- The body of the per-detection loop of `_procesar_con_tracker_simple`:
match-or-create, then `_verificar_cruce`; the accumulator also carries
`tracks_usados` and the output list. -/
def procesarDeteccion (acc : CounterState × List Nat × List (Deteccion × Nat))
    (det : Deteccion) : CounterState × List Nat × List (Deteccion × Nat) :=
  let s := acc.1
  let usados := acc.2.1
  let salida := acc.2.2
  let cx := det.centro.1
  let cy := det.centro.2
  match encontrar_track_cercano s.tracks cx cy det.categoria usados with
  | none =>
      let tid := s.siguiente_track_id
      let s1 := { s with siguiente_track_id := tid + 1
                         tracks := s.tracks ++ [(tid, nuevoTrack tid det.categoria cx cy)] }
      let s2 := verificar_cruce s1 tid
      (s2, usados ++ [tid], salida ++ [(det, tid)])
  | some tid =>
      let s1 := actualizar_track s tid det.categoria cx cy
      let s2 := verificar_cruce s1 tid
      (s2, usados ++ [tid], salida ++ [(det, tid)])

/-- `_limpiar_tracks_antiguos`: drop every track that is not active in this
frame and has `cruzado` set. -/
def limpiar_tracks_antiguos (tracks : List (Nat × TrackInfo))
    (activos : List Nat) : List (Nat × TrackInfo) :=
  tracks.filter (fun e => decide (e.1 ∈ activos) || !e.2.cruzado)

/-- `_procesar_con_tracker_simple`: fold the per-detection loop, then clean
up stale crossed tracks. -/
def procesar_con_tracker_simple (s : CounterState) (dets : List Deteccion) :
    CounterState × List (Deteccion × Nat) :=
  let r := dets.foldl procesarDeteccion (s, [], [])
  ({ r.1 with tracks := limpiar_tracks_antiguos r.1.tracks r.2.1 }, r.2.2)

/-- The `tracks_usados` set produced by a frame of the simple tracker. -/
def tracksUsados (s : CounterState) (dets : List Deteccion) : List Nat :=
  (dets.foldl procesarDeteccion (s, [], [])).2.1

/-- `procesar_detecciones` (simple-tracker path): an empty detection list
short-circuits to `[]` before any tracking or cleanup runs. -/
def procesar_detecciones (s : CounterState) (dets : List Deteccion) :
    CounterState × List (Deteccion × Nat) :=
  if dets = [] then (s, [])
  else procesar_con_tracker_simple s dets

/-- `obtener_total_cruces`: totals (izq_der, der_izq, suma) over all
categories. -/
def obtener_total_cruces (s : CounterState) : Nat × Nat × Nat :=
  let lr := (s.contadores.map (fun e => e.2.1)).sum
  let rl := (s.contadores.map (fun e => e.2.2)).sum
  (lr, rl, lr + rl)

/-- `reiniciar_contadores`: zero every counter, clear the track map, restart
the ID sequence at 1. -/
def reiniciar_contadores (s : CounterState) : CounterState :=
  { s with contadores := inicializar_contadores s.categorias
           tracks := []
           siguiente_track_id := 1 }

/-- One update-then-check step for a single track, as both processing paths
perform it (`_actualizar_track` followed by `_verificar_cruce`). -/
def pasoTrack (s : CounterState) (tid : Nat) (cat : String) (p : Int × Int) :
    CounterState :=
  verificar_cruce (actualizar_track s tid cat p.1 p.2) tid

/-- Feeding a whole sequence of centroid samples of one track through
update-then-check. -/
def correrTrack (s : CounterState) (tid : Nat) (cat : String)
    (ps : List (Int × Int)) : CounterState :=
  ps.foldl (fun st p => pasoTrack st tid cat p) s

/-! ### Helper lemmas about the association-list primitives -/

theorem lookupTrack_modifyTrack_self (l : List (Nat × TrackInfo)) (tid : Nat)
    (f : TrackInfo → TrackInfo) :
    lookupTrack (modifyTrack l tid f) tid = (lookupTrack l tid).map f := by
  induction l with
  | nil => rfl
  | cons e rest ih =>
      by_cases h : e.1 = tid
      · simp [modifyTrack, lookupTrack, h]
      · simp [modifyTrack, lookupTrack, h, ih]

theorem lookupTrack_modifyTrack_ne (l : List (Nat × TrackInfo)) (tid tid2 : Nat)
    (f : TrackInfo → TrackInfo) (h : tid2 ≠ tid) :
    lookupTrack (modifyTrack l tid f) tid2 = lookupTrack l tid2 := by
  induction l with
  | nil => rfl
  | cons e rest ih =>
      by_cases he : e.1 = tid
      · simp [modifyTrack, lookupTrack, he, Ne.symm h]
      · by_cases he2 : e.1 = tid2
        · simp [modifyTrack, lookupTrack, he, he2, h]
        · simp [modifyTrack, lookupTrack, he, he2, ih]

theorem lookupTrack_append_self (l : List (Nat × TrackInfo)) (tid : Nat)
    (v : TrackInfo) (h : lookupTrack l tid = none) :
    lookupTrack (l ++ [(tid, v)]) tid = some v := by
  induction l with
  | nil => simp [lookupTrack]
  | cons e rest ih =>
      by_cases he : e.1 = tid
      · simp [lookupTrack, he] at h
      · simp only [lookupTrack, he] at h
        simp [lookupTrack, he, ih h]

theorem lookupC_incContador_self (cs : List (String × Nat × Nat)) (cat : String)
    (d : Direccion) :
    lookupC (incContador cs cat d) cat = (lookupC cs cat).map
      (fun p => match d with
        | Direccion.izqDer => (p.1 + 1, p.2)
        | Direccion.derIzq => (p.1, p.2 + 1)) := by
  induction cs with
  | nil => rfl
  | cons e rest ih =>
      by_cases h : e.1 = cat
      · cases d <;> simp [incContador, lookupC, h]
      · cases d <;> simp_all [incContador, lookupC, h]

theorem lookupC_incContador_ne (cs : List (String × Nat × Nat)) (cat c : String)
    (d : Direccion) (h : c ≠ cat) :
    lookupC (incContador cs cat d) c = lookupC cs c := by
  induction cs with
  | nil => rfl
  | cons e rest ih =>
      by_cases he : e.1 = cat
      · cases d <;> simp [incContador, lookupC, he, Ne.symm h]
      · by_cases he2 : e.1 = c
        · cases d <;> simp [incContador, lookupC, he, he2, h]
        · cases d <;> simp_all [incContador, lookupC, he, he2]

theorem lookupC_inicializar (l : List String) (cat : String) :
    (lookupC (inicializar_contadores l) cat).getD (0, 0) = (0, 0) := by
  induction l with
  | nil => rfl
  | cons c rest ih =>
      by_cases h : c = cat
      · simp [inicializar_contadores, lookupC, h]
      · simpa [inicializar_contadores, lookupC, h] using ih

theorem sum_map_inicializar_fst (l : List String) :
    ((inicializar_contadores l).map (fun e => e.2.1)).sum = 0 := by
  induction l with
  | nil => rfl
  | cons c rest ih => simpa [inicializar_contadores] using ih

theorem sum_map_inicializar_snd (l : List String) :
    ((inicializar_contadores l).map (fun e => e.2.2)).sum = 0 := by
  induction l with
  | nil => rfl
  | cons c rest ih => simpa [inicializar_contadores] using ih

/-! ### Behavior of `registrar_cruce` -/

theorem registrar_cruce_tracks (s : CounterState) (tid : Nat) (t : TrackInfo)
    (d : Direccion) (hlk : lookupTrack s.tracks tid = some t) :
    (registrar_cruce s tid d).tracks =
      modifyTrack s.tracks tid (sellarCruce d) := by
  simp only [registrar_cruce, hlk]
  split
  · split <;> rfl
  · rfl

theorem registrar_cruce_contadores (s : CounterState) (tid : Nat) (t : TrackInfo)
    (d : Direccion) (hlk : lookupTrack s.tracks tid = some t) :
    (registrar_cruce s tid d).contadores =
      if (lookupC s.contadores t.categoria).isSome then
        incContador s.contadores t.categoria d
      else s.contadores := by
  simp only [registrar_cruce, hlk]
  split
  · split <;> rfl
  · rfl

theorem registrar_cruce_eventos (s : CounterState) (tid : Nat) (t : TrackInfo)
    (d : Direccion) (hlk : lookupTrack s.tracks tid = some t) :
    (registrar_cruce s tid d).eventos =
      if (lookupC s.contadores t.categoria).isSome ∧ s.tiene_callback = true then
        s.eventos ++ [(t.categoria, d, tid)]
      else s.eventos := by
  simp only [registrar_cruce, hlk]
  by_cases h1 : (lookupC s.contadores t.categoria).isSome
  · by_cases h2 : s.tiene_callback = true
    · simp [h1, h2]
    · simp [h1, h2]
  · simp [h1]

theorem registrar_cruce_resto (s : CounterState) (tid : Nat) (d : Direccion) :
    (registrar_cruce s tid d).linea_x = s.linea_x ∧
    (registrar_cruce s tid d).margen_cruce = s.margen_cruce ∧
    (registrar_cruce s tid d).tiene_callback = s.tiene_callback ∧
    (registrar_cruce s tid d).siguiente_track_id = s.siguiente_track_id ∧
    (registrar_cruce s tid d).categorias = s.categorias ∧
    (registrar_cruce s tid d).ancho_frame = s.ancho_frame ∧
    (registrar_cruce s tid d).alto_frame = s.alto_frame ∧
    (registrar_cruce s tid d).linea_posicion_relativa = s.linea_posicion_relativa := by
  simp only [registrar_cruce]
  split
  · exact ⟨rfl, rfl, rfl, rfl, rfl, rfl, rfl, rfl⟩
  · split
    · split <;> exact ⟨rfl, rfl, rfl, rfl, rfl, rfl, rfl, rfl⟩
    · exact ⟨rfl, rfl, rfl, rfl, rfl, rfl, rfl, rfl⟩

/-! ### Case analysis of `_verificar_cruce` -/

theorem verificar_cruce_de_none (s : CounterState) (tid : Nat)
    (hlk : lookupTrack s.tracks tid = none) :
    verificar_cruce s tid = s := by
  simp [verificar_cruce, hlk]

theorem verificar_cruce_corto (s : CounterState) (tid : Nat) (t : TrackInfo)
    (hlk : lookupTrack s.tracks tid = some t)
    (hlen : t.historial_posiciones.length < 2) :
    verificar_cruce s tid = s := by
  simp only [verificar_cruce, hlk]
  rw [if_pos hlen]

theorem verificar_cruce_eq_lr (s : CounterState) (tid : Nat) (t : TrackInfo)
    (hlk : lookupTrack s.tracks tid = some t)
    (hlen : 2 ≤ t.historial_posiciones.length)
    (h1 : (penultimaPos t.historial_posiciones).1 < s.linea_x)
    (h2 : s.linea_x ≤ (ultimaPos t.historial_posiciones).1)
    (hpc : t.puede_cruzar = true) :
    verificar_cruce s tid =
      { registrar_cruce s tid Direccion.izqDer with
          tracks := modifyTrack (registrar_cruce s tid Direccion.izqDer).tracks
            tid (desarmarTrack "derecha") } := by
  simp only [verificar_cruce, hlk]
  rw [if_neg (by omega), if_pos ⟨h1, h2⟩, if_pos hpc]

theorem verificar_cruce_eq_rl (s : CounterState) (tid : Nat) (t : TrackInfo)
    (hlk : lookupTrack s.tracks tid = some t)
    (hlen : 2 ≤ t.historial_posiciones.length)
    (h1 : s.linea_x < (penultimaPos t.historial_posiciones).1)
    (h2 : (ultimaPos t.historial_posiciones).1 ≤ s.linea_x)
    (hpc : t.puede_cruzar = true) :
    verificar_cruce s tid =
      { registrar_cruce s tid Direccion.derIzq with
          tracks := modifyTrack (registrar_cruce s tid Direccion.derIzq).tracks
            tid (desarmarTrack "izquierda") } := by
  simp only [verificar_cruce, hlk]
  rw [if_neg (by omega), if_neg (by omega), if_pos ⟨h1, h2⟩, if_pos hpc]

theorem verificar_cruce_bloqueado (s : CounterState) (tid : Nat) (t : TrackInfo)
    (hlk : lookupTrack s.tracks tid = some t)
    (hlen : 2 ≤ t.historial_posiciones.length)
    (hgeo : ((penultimaPos t.historial_posiciones).1 < s.linea_x ∧
             s.linea_x ≤ (ultimaPos t.historial_posiciones).1) ∨
            (s.linea_x < (penultimaPos t.historial_posiciones).1 ∧
             (ultimaPos t.historial_posiciones).1 ≤ s.linea_x))
    (hpc : t.puede_cruzar = false) :
    verificar_cruce s tid = s := by
  simp only [verificar_cruce, hlk]
  rcases hgeo with h | h
  · rw [if_neg (by omega), if_pos h, if_neg (by simp [hpc])]
  · rw [if_neg (by omega), if_neg (by omega), if_pos h, if_neg (by simp [hpc])]

theorem verificar_cruce_rearme (s : CounterState) (tid : Nat) (t : TrackInfo)
    (hlk : lookupTrack s.tracks tid = some t)
    (hlen : 2 ≤ t.historial_posiciones.length)
    (hn1 : ¬((penultimaPos t.historial_posiciones).1 < s.linea_x ∧
             s.linea_x ≤ (ultimaPos t.historial_posiciones).1))
    (hn2 : ¬(s.linea_x < (penultimaPos t.historial_posiciones).1 ∧
             (ultimaPos t.historial_posiciones).1 ≤ s.linea_x))
    (hfar : s.margen_cruce < ((ultimaPos t.historial_posiciones).1 - s.linea_x).natAbs) :
    verificar_cruce s tid = { s with tracks := modifyTrack s.tracks tid armarTrack } := by
  simp only [verificar_cruce, hlk]
  rw [if_neg (by omega), if_neg hn1, if_neg hn2, if_pos hfar]

theorem verificar_cruce_cerca (s : CounterState) (tid : Nat) (t : TrackInfo)
    (hlk : lookupTrack s.tracks tid = some t)
    (hlen : 2 ≤ t.historial_posiciones.length)
    (hn1 : ¬((penultimaPos t.historial_posiciones).1 < s.linea_x ∧
             s.linea_x ≤ (ultimaPos t.historial_posiciones).1))
    (hn2 : ¬(s.linea_x < (penultimaPos t.historial_posiciones).1 ∧
             (ultimaPos t.historial_posiciones).1 ≤ s.linea_x))
    (hcer : ¬ s.margen_cruce < ((ultimaPos t.historial_posiciones).1 - s.linea_x).natAbs) :
    verificar_cruce s tid = s := by
  simp only [verificar_cruce, hlk]
  rw [if_neg (by omega), if_neg hn1, if_neg hn2, if_neg hcer]

/-! ### Concrete example states for witnesses and counterexamples -/

/-- A concrete track with the given category and position history. -/
def trackEj (cat : String) (h : List (Int × Int)) : TrackInfo :=
  { track_id := 1
    categoria := cat
    ultima_posicion_x := (ultimaPos h).1
    posicion_inicial_x := 0
    historial_posiciones := h }

/-- A concrete counter state: line at x = 150, margin 30, default categories,
a callback configured, and a single track (id 1) with the given category and
history. -/
def estadoConTrack (cat : String) (h : List (Int × Int)) : CounterState :=
  { ancho_frame := 300
    alto_frame := 480
    margen_cruce := 30
    linea_posicion_relativa := 1 / 2
    linea_x := 150
    categorias := categoriasDefecto
    contadores := inicializar_contadores categoriasDefecto
    tracks := [(1, trackEj cat h)]
    siguiente_track_id := 2
    tiene_callback := true
    eventos := [] }

/-- A concrete freshly-constructed counter. -/
def estadoBase : CounterState := mkCounter 640 480 (1 / 2) 30 categoriasDefecto false

/-! ### Claim theorems -/

/-- C10: processing an empty detection list is a state-preserving no-op:
`procesar_detecciones s [] = (s, [])`, so no counter, track, flag, history,
or next-ID change, and no eviction runs. -/
theorem c10_procesar_vacio (s : CounterState) :
    procesar_detecciones s [] = (s, []) := by
  simp [procesar_detecciones]

/-- C7: reset is complete and idempotent: after `reiniciar_contadores` every
counter cell is zero (each configured cell, and `contadorDe` of any category),
the totals are (0, 0, 0), the track map is empty, the next ID is 1, and
resetting twice equals resetting once. -/
theorem c7_reiniciar (s : CounterState) :
    (reiniciar_contadores s).contadores = inicializar_contadores s.categorias ∧
    (∀ cat : String, contadorDe (reiniciar_contadores s) cat = (0, 0)) ∧
    obtener_total_cruces (reiniciar_contadores s) = (0, 0, 0) ∧
    (reiniciar_contadores s).tracks = [] ∧
    (reiniciar_contadores s).siguiente_track_id = 1 ∧
    reiniciar_contadores (reiniciar_contadores s) = reiniciar_contadores s := by
  refine ⟨rfl, ?_, ?_, rfl, rfl, rfl⟩
  · intro cat
    exact lookupC_inicializar s.categorias cat
  · simp [obtener_total_cruces, reiniciar_contadores, sum_map_inicializar_fst,
      sum_map_inicializar_snd]

/-- C8 counterexample: the constructor stores an out-of-range relative line
position without clamping it (`__init__` has no clamp), so with input 0.05
the stored relative position is below 0.1. -/
theorem c8_init_sin_clamp :
    ¬ ((1 : ℚ) / 10 ≤
        (mkCounter 640 480 (1 / 20) 30 categoriasDefecto false).linea_posicion_relativa) := by
  norm_num [mkCounter]

/-- C8 (amended): `actualizar_posicion_linea` clamps the relative position to
[0.1, 0.9] (and keeps an in-range input unchanged); the constructor and
`actualizar_dimensiones` store/keep the relative position as given, without
clamping; in every case the absolute line position is the truncation of
frame width times the stored relative position. -/
theorem c8_linea (s : CounterState) (r : ℚ) (w h a al m : Nat)
    (rel : ℚ) (cats : List String) (cb : Bool) :
    ((1 : ℚ) / 10 ≤ (actualizar_posicion_linea s r).linea_posicion_relativa ∧
      (actualizar_posicion_linea s r).linea_posicion_relativa ≤ 9 / 10) ∧
    (1 / 10 ≤ r → r ≤ 9 / 10 →
      (actualizar_posicion_linea s r).linea_posicion_relativa = r) ∧
    (actualizar_posicion_linea s r).linea_x =
      truncQ ((s.ancho_frame : ℚ) * (actualizar_posicion_linea s r).linea_posicion_relativa) ∧
    (mkCounter a al rel m cats cb).linea_posicion_relativa = rel ∧
    (mkCounter a al rel m cats cb).linea_x = truncQ ((a : ℚ) * rel) ∧
    (actualizar_dimensiones s w h).linea_posicion_relativa = s.linea_posicion_relativa ∧
    (actualizar_dimensiones s w h).linea_x = truncQ ((w : ℚ) * s.linea_posicion_relativa) := by
  refine ⟨⟨le_max_left _ _, max_le (by norm_num) (min_le_left _ _)⟩,
    ?_, rfl, rfl, rfl, rfl, rfl⟩
  intro h1 h2
  show max (1 / 10) (min (9 / 10) r) = r
  rw [min_eq_right h2, max_eq_right h1]

/-- Witness for C8: concrete application with the in-range input 0.5. -/
theorem c8_linea_witness :
    ((1 : ℚ) / 10 ≤ (actualizar_posicion_linea estadoBase (1 / 2)).linea_posicion_relativa ∧
      (actualizar_posicion_linea estadoBase (1 / 2)).linea_posicion_relativa ≤ 9 / 10) ∧
    (actualizar_posicion_linea estadoBase (1 / 2)).linea_posicion_relativa = 1 / 2 ∧
    (actualizar_posicion_linea estadoBase (1 / 2)).linea_x =
      truncQ ((estadoBase.ancho_frame : ℚ) *
        (actualizar_posicion_linea estadoBase (1 / 2)).linea_posicion_relativa) := by
  obtain ⟨hb, hid, hx, -⟩ :=
    c8_linea estadoBase (1 / 2) 800 600 640 480 30 (1 / 2) categoriasDefecto false
  exact ⟨hb, hid (by norm_num) (by norm_num), hx⟩

theorem lookupC_incContador_lr (cs : List (String × Nat × Nat)) (cat : String) :
    lookupC (incContador cs cat Direccion.izqDer) cat =
      (lookupC cs cat).map (fun p => (p.1 + 1, p.2)) := by
  rw [lookupC_incContador_self]

theorem lookupC_incContador_rl (cs : List (String × Nat × Nat)) (cat : String) :
    lookupC (incContador cs cat Direccion.derIzq) cat =
      (lookupC cs cat).map (fun p => (p.1, p.2 + 1)) := by
  rw [lookupC_incContador_self]

/-- C9 counterexample: with a track created as "adulto", an update supplying
the category "nino" followed by a crossing registration increments the
"adulto" cell, not the "nino" cell of the most recently supplied category. -/
theorem c9_usa_categoria_original :
    (contadorDe (registrar_cruce
        (actualizar_track (estadoConTrack "adulto" [(100, 0)]) 1 "nino" 110 0)
        1 Direccion.izqDer) "nino").1 = 0 ∧
    (contadorDe (registrar_cruce
        (actualizar_track (estadoConTrack "adulto" [(100, 0)]) 1 "nino" 110 0)
        1 Direccion.izqDer) "adulto").1 = 1 := by
  decide

/-- C9 (amended): for an existing track, an update call leaves the stored
category at its creation-time value whatever category is supplied, and a
crossing registered afterwards increments the counter cell of that
creation-time category. -/
theorem c9_categoria_de_creacion (s : CounterState) (tid : Nat) (t : TrackInfo)
    (cat : String) (cx cy : Int) (c0 : Nat × Nat)
    (hlk : lookupTrack s.tracks tid = some t)
    (hc : lookupC s.contadores t.categoria = some c0) :
    (∃ t2, lookupTrack (actualizar_track s tid cat cx cy).tracks tid = some t2 ∧
        t2.categoria = t.categoria) ∧
    contadorDe (registrar_cruce (actualizar_track s tid cat cx cy) tid
        Direccion.izqDer) t.categoria = (c0.1 + 1, c0.2) := by
  have hupd : actualizar_track s tid cat cx cy =
      { s with tracks := modifyTrack s.tracks tid (avanceTrack cx cy) } := by
    simp [actualizar_track, hlk]
  have hlk2 : lookupTrack (actualizar_track s tid cat cx cy).tracks tid =
      some (avanceTrack cx cy t) := by
    rw [hupd]
    show lookupTrack (modifyTrack s.tracks tid (avanceTrack cx cy)) tid = _
    rw [lookupTrack_modifyTrack_self, hlk]
    rfl
  refine ⟨⟨avanceTrack cx cy t, hlk2, rfl⟩, ?_⟩
  have hcon : (actualizar_track s tid cat cx cy).contadores = s.contadores := by
    rw [hupd]
  have hreg := registrar_cruce_contadores (actualizar_track s tid cat cx cy)
    tid (avanceTrack cx cy t) Direccion.izqDer hlk2
  rw [hcon] at hreg
  have hcat : (avanceTrack cx cy t).categoria = t.categoria := rfl
  rw [hcat] at hreg
  rw [hc] at hreg
  simp only [Option.isSome_some, if_pos] at hreg
  unfold contadorDe
  rw [hreg, lookupC_incContador_lr, hc]
  rfl

/-- Witness for C9's amended theorem at a concrete state. -/
theorem c9_categoria_de_creacion_witness :
    (∃ t2, lookupTrack
        (actualizar_track (estadoConTrack "adulto" [(100, 0)]) 1 "nino" 110 0).tracks 1 =
          some t2 ∧ t2.categoria = "adulto") ∧
    contadorDe (registrar_cruce
        (actualizar_track (estadoConTrack "adulto" [(100, 0)]) 1 "nino" 110 0)
        1 Direccion.izqDer) "adulto" = (1, 0) := by
  exact c9_categoria_de_creacion (estadoConTrack "adulto" [(100, 0)]) 1
    (trackEj "adulto" [(100, 0)]) "nino" 110 0 (0, 0) (by decide) (by decide)

/-- C3 counterexample: registration for a track whose category is not among
the configured counters sets no counter cell and does not invoke the
configured callback, contradicting the claim's "whatever the track's
category". -/
theorem c3_categoria_desconocida :
    (estadoConTrack "perro" [(100, 0)]).tiene_callback = true ∧
    lookupTrack (estadoConTrack "perro" [(100, 0)]).tracks 1 =
      some (trackEj "perro" [(100, 0)]) ∧
    (registrar_cruce (estadoConTrack "perro" [(100, 0)]) 1 Direccion.izqDer).contadores =
      (estadoConTrack "perro" [(100, 0)]).contadores ∧
    (registrar_cruce (estadoConTrack "perro" [(100, 0)]) 1 Direccion.izqDer).eventos = [] := by
  decide

/-- C3 (amended): for every existing track whose category has a configured
counter cell, registration sets `cruzado`, stores the direction, increments
exactly the (category, direction) cell by 1 leaving every other cell
unchanged, and invokes the callback with `(categoria, direccion, track_id)`
exactly when one is configured. -/
theorem c3_registrar_cruce (s : CounterState) (tid : Nat) (t : TrackInfo)
    (c0 : Nat × Nat) (d : Direccion)
    (hlk : lookupTrack s.tracks tid = some t)
    (hc : lookupC s.contadores t.categoria = some c0) :
    (∃ t2, lookupTrack (registrar_cruce s tid d).tracks tid = some t2 ∧
        t2.cruzado = true ∧ t2.direccion_cruce = some d) ∧
    contadorDe (registrar_cruce s tid d) t.categoria =
      (match d with
        | Direccion.izqDer => (c0.1 + 1, c0.2)
        | Direccion.derIzq => (c0.1, c0.2 + 1)) ∧
    (∀ c : String, c ≠ t.categoria →
      contadorDe (registrar_cruce s tid d) c = contadorDe s c) ∧
    (s.tiene_callback = true →
      (registrar_cruce s tid d).eventos = s.eventos ++ [(t.categoria, d, tid)]) ∧
    (s.tiene_callback = false → (registrar_cruce s tid d).eventos = s.eventos) := by
  have hsome : (lookupC s.contadores t.categoria).isSome := by rw [hc]; rfl
  have htr := registrar_cruce_tracks s tid t d hlk
  have hcon := registrar_cruce_contadores s tid t d hlk
  rw [if_pos hsome] at hcon
  have hev := registrar_cruce_eventos s tid t d hlk
  refine ⟨?_, ?_, ?_, ?_, ?_⟩
  · refine ⟨sellarCruce d t, ?_, rfl, rfl⟩
    rw [htr, lookupTrack_modifyTrack_self, hlk]
    rfl
  · unfold contadorDe
    rw [hcon]
    cases d
    · rw [lookupC_incContador_lr, hc]; rfl
    · rw [lookupC_incContador_rl, hc]; rfl
  · intro c hne
    unfold contadorDe
    rw [hcon, lookupC_incContador_ne _ _ _ _ hne]
  · intro hcb
    rw [hev, if_pos ⟨hsome, hcb⟩]
  · intro hcb
    rw [hev, if_neg (by simp [hcb])]

/-- Witness for C3's amended theorem: a concrete "adulto" crossing increments
the (adulto, izq_der) cell, leaves the (nino) cell alone, and logs the
callback invocation. -/
theorem c3_registrar_cruce_witness :
    contadorDe (registrar_cruce (estadoConTrack "adulto" [(100, 0)]) 1
      Direccion.izqDer) "adulto" = (1, 0) ∧
    contadorDe (registrar_cruce (estadoConTrack "adulto" [(100, 0)]) 1
      Direccion.izqDer) "nino" = (0, 0) ∧
    (registrar_cruce (estadoConTrack "adulto" [(100, 0)]) 1
      Direccion.izqDer).eventos = [("adulto", Direccion.izqDer, 1)] := by
  have h := c3_registrar_cruce (estadoConTrack "adulto" [(100, 0)]) 1
    (trackEj "adulto" [(100, 0)]) (0, 0) Direccion.izqDer (by decide) (by decide)
  exact ⟨h.2.1, h.2.2.1 "nino" (by decide), h.2.2.2.1 (by decide)⟩

/-- C1: one crossing-check step with at least two history samples registers a
left-to-right crossing exactly when `prev_x < line_x ≤ cur_x` with
`puede_cruzar` set (then disarms the gate and sets the side to "derecha"),
registers a right-to-left crossing exactly when `prev_x > line_x ≥ cur_x`
with `puede_cruzar` set (then disarms and sets the side to "izquierda"), and
registers nothing in every other case; with fewer than two samples no
decision is made.  In particular prev 100 / line 150 / cur 200 counts
left-to-right and prev 200 / line 150 / cur 100 counts right-to-left. -/
theorem c1_verificar_cruce (s : CounterState) (tid : Nat) (t : TrackInfo)
    (c0 : Nat × Nat)
    (hlk : lookupTrack s.tracks tid = some t)
    (hc : lookupC s.contadores t.categoria = some c0) :
    (t.historial_posiciones.length < 2 → verificar_cruce s tid = s) ∧
    (2 ≤ t.historial_posiciones.length →
      ((penultimaPos t.historial_posiciones).1 < s.linea_x →
       s.linea_x ≤ (ultimaPos t.historial_posiciones).1 →
       t.puede_cruzar = true →
          contadorDe (verificar_cruce s tid) t.categoria = (c0.1 + 1, c0.2) ∧
          ∃ t2, lookupTrack (verificar_cruce s tid).tracks tid = some t2 ∧
            t2.cruzado = true ∧ t2.puede_cruzar = false ∧
            t2.ultimo_lado = "derecha") ∧
      (s.linea_x < (penultimaPos t.historial_posiciones).1 →
       (ultimaPos t.historial_posiciones).1 ≤ s.linea_x →
       t.puede_cruzar = true →
          contadorDe (verificar_cruce s tid) t.categoria = (c0.1, c0.2 + 1) ∧
          ∃ t2, lookupTrack (verificar_cruce s tid).tracks tid = some t2 ∧
            t2.cruzado = true ∧ t2.puede_cruzar = false ∧
            t2.ultimo_lado = "izquierda") ∧
      (¬((penultimaPos t.historial_posiciones).1 < s.linea_x ∧
          s.linea_x ≤ (ultimaPos t.historial_posiciones).1 ∧
          t.puede_cruzar = true) →
       ¬(s.linea_x < (penultimaPos t.historial_posiciones).1 ∧
          (ultimaPos t.historial_posiciones).1 ≤ s.linea_x ∧
          t.puede_cruzar = true) →
          (verificar_cruce s tid).contadores = s.contadores ∧
          (verificar_cruce s tid).eventos = s.eventos ∧
          ∃ t2, lookupTrack (verificar_cruce s tid).tracks tid = some t2 ∧
            t2.cruzado = t.cruzado)) ∧
    contadorDe (verificar_cruce (estadoConTrack "adulto" [(100, 0), (200, 0)]) 1)
      "adulto" = (1, 0) ∧
    contadorDe (verificar_cruce (estadoConTrack "adulto" [(200, 0), (100, 0)]) 1)
      "adulto" = (0, 1) := by
  have hsome : (lookupC s.contadores t.categoria).isSome := by rw [hc]; rfl
  refine ⟨fun hlen => verificar_cruce_corto s tid t hlk hlen,
    fun hlen => ⟨?_, ?_, ?_⟩, by decide, by decide⟩
  · intro h1 h2 hpc
    rw [verificar_cruce_eq_lr s tid t hlk hlen h1 h2 hpc]
    have hcon := registrar_cruce_contadores s tid t Direccion.izqDer hlk
    rw [if_pos hsome] at hcon
    constructor
    · unfold contadorDe
      show (lookupC (registrar_cruce s tid Direccion.izqDer).contadores
        t.categoria).getD (0, 0) = _
      rw [hcon, lookupC_incContador_lr, hc]
      rfl
    · refine ⟨desarmarTrack "derecha" (sellarCruce Direccion.izqDer t), ?_, rfl, rfl, rfl⟩
      show lookupTrack (modifyTrack (registrar_cruce s tid Direccion.izqDer).tracks
        tid (desarmarTrack "derecha")) tid = _
      rw [lookupTrack_modifyTrack_self,
        registrar_cruce_tracks s tid t Direccion.izqDer hlk,
        lookupTrack_modifyTrack_self, hlk]
      rfl
  · intro h1 h2 hpc
    rw [verificar_cruce_eq_rl s tid t hlk hlen h1 h2 hpc]
    have hcon := registrar_cruce_contadores s tid t Direccion.derIzq hlk
    rw [if_pos hsome] at hcon
    constructor
    · unfold contadorDe
      show (lookupC (registrar_cruce s tid Direccion.derIzq).contadores
        t.categoria).getD (0, 0) = _
      rw [hcon, lookupC_incContador_rl, hc]
      rfl
    · refine ⟨desarmarTrack "izquierda" (sellarCruce Direccion.derIzq t), ?_, rfl, rfl, rfl⟩
      show lookupTrack (modifyTrack (registrar_cruce s tid Direccion.derIzq).tracks
        tid (desarmarTrack "izquierda")) tid = _
      rw [lookupTrack_modifyTrack_self,
        registrar_cruce_tracks s tid t Direccion.derIzq hlk,
        lookupTrack_modifyTrack_self, hlk]
      rfl
  · intro hn1 hn2
    by_cases hpc : t.puede_cruzar = true
    · have hg1 : ¬((penultimaPos t.historial_posiciones).1 < s.linea_x ∧
          s.linea_x ≤ (ultimaPos t.historial_posiciones).1) := by
        intro hg
        exact hn1 ⟨hg.1, hg.2, hpc⟩
      have hg2 : ¬(s.linea_x < (penultimaPos t.historial_posiciones).1 ∧
          (ultimaPos t.historial_posiciones).1 ≤ s.linea_x) := by
        intro hg
        exact hn2 ⟨hg.1, hg.2, hpc⟩
      by_cases hfar : s.margen_cruce <
          ((ultimaPos t.historial_posiciones).1 - s.linea_x).natAbs
      · rw [verificar_cruce_rearme s tid t hlk hlen hg1 hg2 hfar]
        refine ⟨rfl, rfl, armarTrack t, ?_, rfl⟩
        show lookupTrack (modifyTrack s.tracks tid armarTrack) tid = _
        rw [lookupTrack_modifyTrack_self, hlk]
        rfl
      · rw [verificar_cruce_cerca s tid t hlk hlen hg1 hg2 hfar]
        exact ⟨rfl, rfl, t, hlk, rfl⟩
    · have hpc2 : t.puede_cruzar = false := by
        cases h : t.puede_cruzar
        · rfl
        · exact absurd h hpc
      by_cases hg1 : (penultimaPos t.historial_posiciones).1 < s.linea_x ∧
          s.linea_x ≤ (ultimaPos t.historial_posiciones).1
      · rw [verificar_cruce_bloqueado s tid t hlk hlen (Or.inl hg1) hpc2]
        exact ⟨rfl, rfl, t, hlk, rfl⟩
      · by_cases hg2 : s.linea_x < (penultimaPos t.historial_posiciones).1 ∧
            (ultimaPos t.historial_posiciones).1 ≤ s.linea_x
        · rw [verificar_cruce_bloqueado s tid t hlk hlen (Or.inr hg2) hpc2]
          exact ⟨rfl, rfl, t, hlk, rfl⟩
        · by_cases hfar : s.margen_cruce <
              ((ultimaPos t.historial_posiciones).1 - s.linea_x).natAbs
          · rw [verificar_cruce_rearme s tid t hlk hlen hg1 hg2 hfar]
            refine ⟨rfl, rfl, armarTrack t, ?_, rfl⟩
            show lookupTrack (modifyTrack s.tracks tid armarTrack) tid = _
            rw [lookupTrack_modifyTrack_self, hlk]
            rfl
          · rw [verificar_cruce_cerca s tid t hlk hlen hg1 hg2 hfar]
            exact ⟨rfl, rfl, t, hlk, rfl⟩

/-- Witness for C1: the claim's own concrete direction examples, obtained by
applying the theorem at the concrete state with history [(100,0),(200,0)]. -/
theorem c1_verificar_cruce_witness :
    contadorDe (verificar_cruce (estadoConTrack "adulto" [(100, 0), (200, 0)]) 1)
      "adulto" = (1, 0) ∧
    contadorDe (verificar_cruce (estadoConTrack "adulto" [(200, 0), (100, 0)]) 1)
      "adulto" = (0, 1) := by
  have h := c1_verificar_cruce (estadoConTrack "adulto" [(100, 0), (200, 0)]) 1
    (trackEj "adulto" [(100, 0), (200, 0)]) (0, 0) (by decide) (by decide)
  exact ⟨((h.2.1 (by decide)).1 (by decide) (by decide) (by decide)).1, h.2.2.2⟩

theorem modifyTrack_id (l : List (Nat × TrackInfo)) (tid : Nat) :
    modifyTrack l tid (fun u => u) = l := by
  induction l with
  | nil => rfl
  | cons e rest ih =>
      by_cases h : e.1 = tid
      · simp only [modifyTrack, if_pos h]
      · simp [modifyTrack, h, ih]

theorem modifyTrack_comp (l : List (Nat × TrackInfo)) (tid : Nat)
    (f g : TrackInfo → TrackInfo) :
    modifyTrack (modifyTrack l tid f) tid g = modifyTrack l tid (fun u => g (f u)) := by
  induction l with
  | nil => rfl
  | cons e rest ih =>
      by_cases h : e.1 = tid
      · simp [modifyTrack, h]
      · simp [modifyTrack, h, ih]

/-- Full case analysis of one `_verificar_cruce` call on an existing track:
either the state is untouched, or only the re-arm flag flips, or (gate open)
a crossing is registered and the gate disarmed. -/
theorem verificar_cruce_casos (s : CounterState) (tid : Nat) (t : TrackInfo)
    (hlk : lookupTrack s.tracks tid = some t) :
    verificar_cruce s tid = s ∨
    verificar_cruce s tid = { s with tracks := modifyTrack s.tracks tid armarTrack } ∨
    (t.puede_cruzar = true ∧
      ∃ d lado, verificar_cruce s tid =
        { registrar_cruce s tid d with
            tracks := modifyTrack (registrar_cruce s tid d).tracks tid
              (desarmarTrack lado) }) := by
  by_cases hlen : t.historial_posiciones.length < 2
  · exact Or.inl (verificar_cruce_corto s tid t hlk hlen)
  · have hlen2 : 2 ≤ t.historial_posiciones.length := by omega
    by_cases hpc : t.puede_cruzar = true
    · by_cases hg1 : (penultimaPos t.historial_posiciones).1 < s.linea_x ∧
          s.linea_x ≤ (ultimaPos t.historial_posiciones).1
      · exact Or.inr (Or.inr ⟨hpc, Direccion.izqDer, "derecha",
          verificar_cruce_eq_lr s tid t hlk hlen2 hg1.1 hg1.2 hpc⟩)
      · by_cases hg2 : s.linea_x < (penultimaPos t.historial_posiciones).1 ∧
            (ultimaPos t.historial_posiciones).1 ≤ s.linea_x
        · exact Or.inr (Or.inr ⟨hpc, Direccion.derIzq, "izquierda",
            verificar_cruce_eq_rl s tid t hlk hlen2 hg2.1 hg2.2 hpc⟩)
        · by_cases hfar : s.margen_cruce <
              ((ultimaPos t.historial_posiciones).1 - s.linea_x).natAbs
          · exact Or.inr (Or.inl (verificar_cruce_rearme s tid t hlk hlen2 hg1 hg2 hfar))
          · exact Or.inl (verificar_cruce_cerca s tid t hlk hlen2 hg1 hg2 hfar)
    · have hpc2 : t.puede_cruzar = false := by
        cases h : t.puede_cruzar
        · rfl
        · exact absurd h hpc
      by_cases hg1 : (penultimaPos t.historial_posiciones).1 < s.linea_x ∧
          s.linea_x ≤ (ultimaPos t.historial_posiciones).1
      · exact Or.inl (verificar_cruce_bloqueado s tid t hlk hlen2 (Or.inl hg1) hpc2)
      · by_cases hg2 : s.linea_x < (penultimaPos t.historial_posiciones).1 ∧
            (ultimaPos t.historial_posiciones).1 ≤ s.linea_x
        · exact Or.inl (verificar_cruce_bloqueado s tid t hlk hlen2 (Or.inr hg2) hpc2)
        · by_cases hfar : s.margen_cruce <
              ((ultimaPos t.historial_posiciones).1 - s.linea_x).natAbs
          · exact Or.inr (Or.inl (verificar_cruce_rearme s tid t hlk hlen2 hg1 hg2 hfar))
          · exact Or.inl (verificar_cruce_cerca s tid t hlk hlen2 hg1 hg2 hfar)

/-- `_verificar_cruce` on one track never touches any other track. -/
theorem verificar_cruce_otros (s : CounterState) (tid tid2 : Nat) (h : tid2 ≠ tid) :
    lookupTrack (verificar_cruce s tid).tracks tid2 = lookupTrack s.tracks tid2 := by
  cases hlk : lookupTrack s.tracks tid with
  | none => rw [verificar_cruce_de_none s tid hlk]
  | some t =>
      rcases verificar_cruce_casos s tid t hlk with he | he | ⟨hpc, d, lado, he⟩
      · rw [he]
      · rw [he]
        show lookupTrack (modifyTrack s.tracks tid armarTrack) tid2 = _
        exact lookupTrack_modifyTrack_ne _ _ _ _ h
      · rw [he]
        show lookupTrack (modifyTrack (registrar_cruce s tid d).tracks tid
          (desarmarTrack lado)) tid2 = _
        rw [lookupTrack_modifyTrack_ne _ _ _ _ h,
          registrar_cruce_tracks s tid t d hlk,
          lookupTrack_modifyTrack_ne _ _ _ _ h]

/-- C4: the `puede_cruzar` (can_cross) invariant.  (1) `TrackInfo` creation
sets it true; (2) so does track creation through `_actualizar_track`;
(3) a counted crossing makes it false; (4) a false gate becomes true only on
a check step with at least two samples, neither crossing geometry, and the
centroid beyond the margin; (5) updates, (6) registration, (7) checks of
other tracks, and (8) eviction never change a surviving track's gate. -/
theorem c4_puede_cruzar :
    (∀ tid cat cx cy, (nuevoTrack tid cat cx cy).puede_cruzar = true) ∧
    (∀ s tid cat cx cy, lookupTrack s.tracks tid = none →
      ∃ t2, lookupTrack (actualizar_track s tid cat cx cy).tracks tid = some t2 ∧
        t2.puede_cruzar = true) ∧
    (∀ s tid t, lookupTrack s.tracks tid = some t →
      2 ≤ t.historial_posiciones.length → t.puede_cruzar = true →
      ((penultimaPos t.historial_posiciones).1 < s.linea_x ∧
        s.linea_x ≤ (ultimaPos t.historial_posiciones).1) ∨
      (s.linea_x < (penultimaPos t.historial_posiciones).1 ∧
        (ultimaPos t.historial_posiciones).1 ≤ s.linea_x) →
      ∃ t2, lookupTrack (verificar_cruce s tid).tracks tid = some t2 ∧
        t2.puede_cruzar = false) ∧
    (∀ s tid t t2, lookupTrack s.tracks tid = some t → t.puede_cruzar = false →
      lookupTrack (verificar_cruce s tid).tracks tid = some t2 →
      t2.puede_cruzar = true →
      2 ≤ t.historial_posiciones.length ∧
      ¬((penultimaPos t.historial_posiciones).1 < s.linea_x ∧
        s.linea_x ≤ (ultimaPos t.historial_posiciones).1) ∧
      ¬(s.linea_x < (penultimaPos t.historial_posiciones).1 ∧
        (ultimaPos t.historial_posiciones).1 ≤ s.linea_x) ∧
      s.margen_cruce < ((ultimaPos t.historial_posiciones).1 - s.linea_x).natAbs) ∧
    (∀ s tid t cat cx cy, lookupTrack s.tracks tid = some t →
      ∃ t2, lookupTrack (actualizar_track s tid cat cx cy).tracks tid = some t2 ∧
        t2.puede_cruzar = t.puede_cruzar) ∧
    (∀ s tid t d, lookupTrack s.tracks tid = some t →
      ∃ t2, lookupTrack (registrar_cruce s tid d).tracks tid = some t2 ∧
        t2.puede_cruzar = t.puede_cruzar) ∧
    (∀ s tid tid2, tid2 ≠ tid →
      lookupTrack (verificar_cruce s tid).tracks tid2 = lookupTrack s.tracks tid2) ∧
    (∀ l activos tid t, (tid, t) ∈ limpiar_tracks_antiguos l activos → (tid, t) ∈ l) := by
  refine ⟨fun tid cat cx cy => rfl, ?_, ?_, ?_, ?_, ?_,
    verificar_cruce_otros, ?_⟩
  · intro s tid cat cx cy hlk
    have htr : (actualizar_track s tid cat cx cy).tracks =
        s.tracks ++ [(tid, nuevoTrack tid cat cx cy)] := by
      simp [actualizar_track, hlk]
    refine ⟨nuevoTrack tid cat cx cy, ?_, rfl⟩
    rw [htr]
    exact lookupTrack_append_self s.tracks tid _ hlk
  · intro s tid t hlk hlen hpc hgeo
    rcases hgeo with hg | hg
    · rw [verificar_cruce_eq_lr s tid t hlk hlen hg.1 hg.2 hpc]
      refine ⟨desarmarTrack "derecha" (sellarCruce Direccion.izqDer t), ?_, rfl⟩
      show lookupTrack (modifyTrack (registrar_cruce s tid Direccion.izqDer).tracks
        tid (desarmarTrack "derecha")) tid = _
      rw [lookupTrack_modifyTrack_self,
        registrar_cruce_tracks s tid t Direccion.izqDer hlk,
        lookupTrack_modifyTrack_self, hlk]
      rfl
    · rw [verificar_cruce_eq_rl s tid t hlk hlen hg.1 hg.2 hpc]
      refine ⟨desarmarTrack "izquierda" (sellarCruce Direccion.derIzq t), ?_, rfl⟩
      show lookupTrack (modifyTrack (registrar_cruce s tid Direccion.derIzq).tracks
        tid (desarmarTrack "izquierda")) tid = _
      rw [lookupTrack_modifyTrack_self,
        registrar_cruce_tracks s tid t Direccion.derIzq hlk,
        lookupTrack_modifyTrack_self, hlk]
      rfl
  · intro s tid t t2 hlk hpc hlk2 hpc2
    by_cases hlen : t.historial_posiciones.length < 2
    · rw [verificar_cruce_corto s tid t hlk hlen, hlk] at hlk2
      cases hlk2
      rw [hpc] at hpc2
      exact absurd hpc2 (by simp)
    · have hlen2 : 2 ≤ t.historial_posiciones.length := by omega
      by_cases hg1 : (penultimaPos t.historial_posiciones).1 < s.linea_x ∧
          s.linea_x ≤ (ultimaPos t.historial_posiciones).1
      · rw [verificar_cruce_bloqueado s tid t hlk hlen2 (Or.inl hg1) hpc, hlk] at hlk2
        cases hlk2
        rw [hpc] at hpc2
        exact absurd hpc2 (by simp)
      · by_cases hg2 : s.linea_x < (penultimaPos t.historial_posiciones).1 ∧
            (ultimaPos t.historial_posiciones).1 ≤ s.linea_x
        · rw [verificar_cruce_bloqueado s tid t hlk hlen2 (Or.inr hg2) hpc, hlk] at hlk2
          cases hlk2
          rw [hpc] at hpc2
          exact absurd hpc2 (by simp)
        · by_cases hfar : s.margen_cruce <
              ((ultimaPos t.historial_posiciones).1 - s.linea_x).natAbs
          · exact ⟨hlen2, hg1, hg2, hfar⟩
          · rw [verificar_cruce_cerca s tid t hlk hlen2 hg1 hg2 hfar, hlk] at hlk2
            cases hlk2
            rw [hpc] at hpc2
            exact absurd hpc2 (by simp)
  · intro s tid t cat cx cy hlk
    refine ⟨avanceTrack cx cy t, ?_, rfl⟩
    show lookupTrack (actualizar_track s tid cat cx cy).tracks tid = _
    rw [show (actualizar_track s tid cat cx cy).tracks =
        modifyTrack s.tracks tid (avanceTrack cx cy) by
      simp [actualizar_track, hlk]]
    rw [lookupTrack_modifyTrack_self, hlk]
    rfl
  · intro s tid t d hlk
    refine ⟨sellarCruce d t, ?_, rfl⟩
    rw [registrar_cruce_tracks s tid t d hlk, lookupTrack_modifyTrack_self, hlk]
    rfl
  · intro l activos tid t hmem
    exact (List.mem_filter.mp hmem).1

/-- Witness for C4: a fresh track's gate is armed, and the concrete crossing
of the C1 example disarms it. -/
theorem c4_puede_cruzar_witness :
    (nuevoTrack 7 "adulto" 100 0).puede_cruzar = true ∧
    (lookupTrack (verificar_cruce (estadoConTrack "adulto" [(100, 0), (200, 0)]) 1).tracks 1).map
      TrackInfo.puede_cruzar = some false := by
  obtain ⟨t2, h2, hp⟩ := c4_puede_cruzar.2.2.1
    (estadoConTrack "adulto" [(100, 0), (200, 0)]) 1
    (trackEj "adulto" [(100, 0), (200, 0)]) (by decide) (by decide) (by decide)
    (Or.inl ⟨by decide, by decide⟩)
  refine ⟨c4_puede_cruzar.1 7 "adulto" 100 0, ?_⟩
  rw [h2]
  simp [hp]

/-! ### The simple matcher: fold invariants of `_encontrar_track_cercano` -/

/-- The gating conditions of the matcher loop: an entry is a candidate when
it is unclaimed, of the requested category, and has a recorded position. -/
def esCandidato (cat : String) (usados : List Nat) (e : Nat × TrackInfo) : Prop :=
  e.1 ∉ usados ∧ e.2.categoria = cat ∧ e.2.historial_posiciones ≠ []

/-- Squared distance from the query centroid to an entry's last recorded
centroid. -/
def distDe (cx cy : Int) (e : Nat × TrackInfo) : Int :=
  distSq cx cy (ultimaPos e.2.historial_posiciones).1
    (ultimaPos e.2.historial_posiciones).2

theorem pasoCercano_candidato (cx cy : Int) (cat : String) (usados : List Nat)
    (acc : Option (Int × Nat)) (a : Nat × TrackInfo)
    (h1 : a.1 ∉ usados) (h2 : a.2.categoria = cat)
    (h3 : a.2.historial_posiciones ≠ []) :
    pasoCercano cx cy cat usados acc a =
      match acc with
      | none =>
          if distDe cx cy a < umbralSq then some (distDe cx cy a, a.1) else none
      | some m =>
          if distDe cx cy a < m.1 ∧ distDe cx cy a < umbralSq then
            some (distDe cx cy a, a.1)
          else some m := by
  simp only [pasoCercano, if_neg h1,
    if_neg (show ¬ a.2.categoria ≠ cat from fun hn => hn h2), if_neg h3]
  cases acc <;> rfl

theorem pasoCercano_cases (cx cy : Int) (cat : String) (usados : List Nat)
    (acc : Option (Int × Nat)) (a : Nat × TrackInfo) :
    (¬ esCandidato cat usados a ∧ pasoCercano cx cy cat usados acc a = acc) ∨
    (esCandidato cat usados a ∧
      ((acc = none ∧ distDe cx cy a < umbralSq ∧
          pasoCercano cx cy cat usados acc a = some (distDe cx cy a, a.1)) ∨
       (acc = none ∧ ¬ distDe cx cy a < umbralSq ∧
          pasoCercano cx cy cat usados acc a = none) ∨
       (∃ m, acc = some m ∧ distDe cx cy a < m.1 ∧ distDe cx cy a < umbralSq ∧
          pasoCercano cx cy cat usados acc a = some (distDe cx cy a, a.1)) ∨
       (∃ m, acc = some m ∧ ¬(distDe cx cy a < m.1 ∧ distDe cx cy a < umbralSq) ∧
          pasoCercano cx cy cat usados acc a = some m))) := by
  by_cases h1 : a.1 ∈ usados
  · exact Or.inl ⟨fun hc => hc.1 h1, by simp [pasoCercano, h1]⟩
  · by_cases h2 : a.2.categoria = cat
    · by_cases h3 : a.2.historial_posiciones = []
      · refine Or.inl ⟨fun hc => hc.2.2 h3, ?_⟩
        simp only [pasoCercano, if_neg h1,
          if_neg (show ¬ a.2.categoria ≠ cat from fun hn => hn h2), if_pos h3]
      · refine Or.inr ⟨⟨h1, h2, h3⟩, ?_⟩
        have hnf := pasoCercano_candidato cx cy cat usados acc a h1 h2 h3
        cases acc with
        | none =>
            by_cases h4 : distDe cx cy a < umbralSq
            · refine Or.inl ⟨rfl, h4, ?_⟩
              rw [hnf]
              show (if distDe cx cy a < umbralSq then some (distDe cx cy a, a.1)
                else none) = _
              rw [if_pos h4]
            · refine Or.inr (Or.inl ⟨rfl, h4, ?_⟩)
              rw [hnf]
              show (if distDe cx cy a < umbralSq then some (distDe cx cy a, a.1)
                else none) = _
              rw [if_neg h4]
        | some m =>
            by_cases h4 : distDe cx cy a < m.1 ∧ distDe cx cy a < umbralSq
            · refine Or.inr (Or.inr (Or.inl ⟨m, rfl, h4.1, h4.2, ?_⟩))
              rw [hnf]
              show (if distDe cx cy a < m.1 ∧ distDe cx cy a < umbralSq then
                some (distDe cx cy a, a.1) else some m) = _
              rw [if_pos h4]
            · refine Or.inr (Or.inr (Or.inr ⟨m, rfl, h4, ?_⟩))
              rw [hnf]
              show (if distDe cx cy a < m.1 ∧ distDe cx cy a < umbralSq then
                some (distDe cx cy a, a.1) else some m) = _
              rw [if_neg h4]
    · exact Or.inl ⟨fun hc => h2 hc.2.1, by simp [pasoCercano, h1, h2]⟩

theorem pasoCercano_de_some (cx cy : Int) (cat : String) (usados : List Nat)
    (m : Int × Nat) (a : Nat × TrackInfo) :
    pasoCercano cx cy cat usados (some m) a = some m ∨
    (pasoCercano cx cy cat usados (some m) a = some (distDe cx cy a, a.1) ∧
      distDe cx cy a < m.1) := by
  rcases pasoCercano_cases cx cy cat usados (some m) a with ⟨_, heq⟩ | ⟨_, hcase⟩
  · exact Or.inl heq
  · rcases hcase with ⟨hn, _, _⟩ | ⟨hn, _, _⟩ | ⟨m0, hm0, hlt, _, heq⟩ |
      ⟨m0, hm0, _, heq⟩
    · exact absurd hn (by simp)
    · exact absurd hn (by simp)
    · have hm : m0 = m := by
        injection hm0 with h
        exact h.symm
      subst hm
      exact Or.inr ⟨heq, hlt⟩
    · have hm : m0 = m := by
        injection hm0 with h
        exact h.symm
      subst hm
      exact Or.inl heq

theorem pasoCercano_inv (cx cy : Int) (cat : String) (usados : List Nat)
    (acc : Option (Int × Nat)) (a : Nat × TrackInfo)
    (hacc : ∀ m, acc = some m → m.1 < umbralSq) :
    ∀ m, pasoCercano cx cy cat usados acc a = some m → m.1 < umbralSq := by
  intro m hm
  rcases pasoCercano_cases cx cy cat usados acc a with ⟨_, heq⟩ | ⟨_, hcase⟩
  · rw [heq] at hm
    exact hacc m hm
  · rcases hcase with ⟨_, hd, heq⟩ | ⟨_, _, heq⟩ | ⟨m0, _, _, hu, heq⟩ | ⟨m0, hm0, _, heq⟩
    · rw [heq] at hm
      cases hm
      exact hd
    · rw [heq] at hm
      cases hm
    · rw [heq] at hm
      cases hm
      exact hu
    · rw [heq] at hm
      injection hm with h
      subst h
      exact hacc _ hm0

theorem fold_cercano_mono (cx cy : Int) (cat : String) (usados : List Nat)
    (l : List (Nat × TrackInfo)) :
    ∀ m : Int × Nat,
    ∃ m2, l.foldl (pasoCercano cx cy cat usados) (some m) = some m2 ∧
      m2.1 ≤ m.1 := by
  induction l with
  | nil => exact fun m => ⟨m, rfl, le_refl _⟩
  | cons a rest ih =>
      intro m
      rcases pasoCercano_de_some cx cy cat usados m a with heq | ⟨heq, hlt⟩
      · rw [List.foldl_cons, heq]
        exact ih m
      · rw [List.foldl_cons, heq]
        obtain ⟨m2, h2, hle⟩ := ih (distDe cx cy a, a.1)
        exact ⟨m2, h2, le_trans hle (le_of_lt hlt)⟩

theorem fold_cercano_umbral (cx cy : Int) (cat : String) (usados : List Nat)
    (l : List (Nat × TrackInfo)) :
    ∀ acc, (∀ m, acc = some m → m.1 < umbralSq) →
    ∀ m2, l.foldl (pasoCercano cx cy cat usados) acc = some m2 →
      m2.1 < umbralSq := by
  induction l with
  | nil =>
      intro acc hacc m2 h
      exact hacc m2 h
  | cons a rest ih =>
      intro acc hacc m2 h
      rw [List.foldl_cons] at h
      exact ih _ (pasoCercano_inv cx cy cat usados acc a hacc) m2 h

theorem fold_cercano_sound (cx cy : Int) (cat : String) (usados : List Nat)
    (l : List (Nat × TrackInfo)) :
    ∀ (acc : Option (Int × Nat)) (m2 : Int × Nat),
    l.foldl (pasoCercano cx cy cat usados) acc = some m2 →
    acc = some m2 ∨
    ∃ e, e ∈ l ∧ esCandidato cat usados e ∧ e.1 = m2.2 ∧
      distDe cx cy e = m2.1 ∧ m2.1 < umbralSq := by
  induction l with
  | nil =>
      intro acc m2 h
      exact Or.inl h
  | cons a rest ih =>
      intro acc m2 h
      rw [List.foldl_cons] at h
      rcases ih (pasoCercano cx cy cat usados acc a) m2 h with h2 | ⟨e, he, hc, h1, hd, hu⟩
      · rcases pasoCercano_cases cx cy cat usados acc a with ⟨_, heq⟩ | ⟨hcand, hcase⟩
        · rw [heq] at h2
          exact Or.inl h2
        · rcases hcase with ⟨_, hdu, heq⟩ | ⟨_, _, heq⟩ | ⟨m, _, _, hdu, heq⟩ |
            ⟨m, hm, _, heq⟩
          · rw [heq] at h2
            cases h2
            exact Or.inr ⟨a, List.mem_cons_self a rest, hcand, rfl, rfl, hdu⟩
          · rw [heq] at h2
            cases h2
          · rw [heq] at h2
            cases h2
            exact Or.inr ⟨a, List.mem_cons_self a rest, hcand, rfl, rfl, hdu⟩
          · rw [heq] at h2
            rw [hm]
            exact Or.inl h2
      · exact Or.inr ⟨e, List.mem_cons_of_mem a he, hc, h1, hd, hu⟩

theorem fold_cercano_cota (cx cy : Int) (cat : String) (usados : List Nat)
    (l : List (Nat × TrackInfo)) :
    ∀ (acc : Option (Int × Nat)),
    (∀ m, acc = some m → m.1 < umbralSq) →
    ∀ e, e ∈ l → esCandidato cat usados e →
    (l.foldl (pasoCercano cx cy cat usados) acc = none →
      umbralSq ≤ distDe cx cy e) ∧
    (∀ m2, l.foldl (pasoCercano cx cy cat usados) acc = some m2 →
      m2.1 ≤ distDe cx cy e) := by
  induction l with
  | nil =>
      intro acc _ e he
      cases he
  | cons a rest ih =>
      intro acc hacc e he hc
      have hacc2 := pasoCercano_inv cx cy cat usados acc a hacc
      rcases List.mem_cons.mp he with rfl | he2
      · rcases pasoCercano_cases cx cy cat usados acc e with ⟨hnc, _⟩ | ⟨_, hcase⟩
        · exact absurd hc hnc
        · rcases hcase with ⟨_, _, heq⟩ | ⟨_, hd, heq⟩ | ⟨m, _, _, _, heq⟩ |
            ⟨m, hm, hnlt, heq⟩
          · constructor
            · intro hnone
              rw [List.foldl_cons, heq] at hnone
              obtain ⟨m2, h2, _⟩ := fold_cercano_mono cx cy cat usados rest
                (distDe cx cy e, e.1)
              rw [h2] at hnone
              cases hnone
            · intro m2 h2
              rw [List.foldl_cons, heq] at h2
              obtain ⟨m3, h3, hle⟩ := fold_cercano_mono cx cy cat usados rest
                (distDe cx cy e, e.1)
              rw [h3] at h2
              cases h2
              exact hle
          · refine ⟨fun _ => le_of_not_lt hd, ?_⟩
            intro m2 h2
            rw [List.foldl_cons, heq] at h2
            have hu := fold_cercano_umbral cx cy cat usados rest none
              (fun m hm => by cases hm) m2 h2
            exact le_trans (le_of_lt hu) (le_of_not_lt hd)
          · constructor
            · intro hnone
              rw [List.foldl_cons, heq] at hnone
              obtain ⟨m2, h2, _⟩ := fold_cercano_mono cx cy cat usados rest
                (distDe cx cy e, e.1)
              rw [h2] at hnone
              cases hnone
            · intro m2 h2
              rw [List.foldl_cons, heq] at h2
              obtain ⟨m3, h3, hle⟩ := fold_cercano_mono cx cy cat usados rest
                (distDe cx cy e, e.1)
              rw [h3] at h2
              cases h2
              exact hle
          · constructor
            · intro hnone
              rw [List.foldl_cons, heq] at hnone
              obtain ⟨m2, h2, _⟩ := fold_cercano_mono cx cy cat usados rest m
              rw [h2] at hnone
              cases hnone
            · intro m2 h2
              rw [List.foldl_cons, heq] at h2
              obtain ⟨m3, h3, hle⟩ := fold_cercano_mono cx cy cat usados rest m
              rw [h3] at h2
              cases h2
              rcases not_and_or.mp hnlt with hge | hge
              · exact le_trans hle (le_of_not_lt hge)
              · exact le_trans hle
                  (le_trans (le_of_lt (hacc m hm)) (le_of_not_lt hge))
      · have hrec := ih (pasoCercano cx cy cat usados acc a) hacc2 e he2 hc
        constructor
        · intro h
          rw [List.foldl_cons] at h
          exact hrec.1 h
        · intro m2 h
          rw [List.foldl_cons] at h
          exact hrec.2 m2 h

theorem lookupTrack_none_of_fresh (l : List (Nat × TrackInfo)) (n : Nat)
    (h : ∀ p, p ∈ l → p.1 < n) : lookupTrack l n = none := by
  induction l with
  | nil => rfl
  | cons e rest ih =>
      have h1 := h e (List.mem_cons_self e rest)
      have hne : e.1 ≠ n := by omega
      simp only [lookupTrack, if_neg hne]
      exact ih (fun p hp => h p (List.mem_cons_of_mem e hp))

/-- C5: the built-in matcher associates a detection to an unclaimed
same-category track with a recorded position whose last centroid is at
minimal (squared) Euclidean distance, and only when that distance is
strictly below the 100 px threshold (`distSq < 100 ^ 2`, equivalent to the
source's `sqrt < 100` since squaring is monotone); when no such track
exists the per-detection step creates a new track under the fresh ID
`siguiente_track_id` and increments that counter. -/
theorem c5_emparejamiento :
    (∀ (tracks : List (Nat × TrackInfo)) (cx cy : Int) (cat : String)
        (usados : List Nat) (tid : Nat),
      encontrar_track_cercano tracks cx cy cat usados = some tid →
      ∃ e, e ∈ tracks ∧ e.1 = tid ∧ esCandidato cat usados e ∧
        distDe cx cy e < umbralSq ∧
        ∀ e2, e2 ∈ tracks → esCandidato cat usados e2 →
          distDe cx cy e ≤ distDe cx cy e2) ∧
    (∀ (tracks : List (Nat × TrackInfo)) (cx cy : Int) (cat : String)
        (usados : List Nat),
      encontrar_track_cercano tracks cx cy cat usados = none →
      ∀ e, e ∈ tracks → esCandidato cat usados e →
        umbralSq ≤ distDe cx cy e) ∧
    (∀ (s : CounterState) (usados : List Nat) (salida : List (Deteccion × Nat))
        (det : Deteccion),
      encontrar_track_cercano s.tracks det.centro.1 det.centro.2
        det.categoria usados = none →
      (∀ p, p ∈ s.tracks → p.1 < s.siguiente_track_id) →
      procesarDeteccion (s, usados, salida) det =
        ({ s with siguiente_track_id := s.siguiente_track_id + 1
                  tracks := s.tracks ++ [(s.siguiente_track_id,
                    nuevoTrack s.siguiente_track_id det.categoria
                      det.centro.1 det.centro.2)] },
          usados ++ [s.siguiente_track_id],
          salida ++ [(det, s.siguiente_track_id)])) := by
  refine ⟨?_, ?_, ?_⟩
  · intro tracks cx cy cat usados tid h
    obtain ⟨m2, hm2, htid⟩ := Option.map_eq_some'.mp h
    rcases fold_cercano_sound cx cy cat usados tracks none m2 hm2 with hno | ⟨e, he, hc, h1, hd, hu⟩
    · cases hno
    · refine ⟨e, he, by rw [h1, htid], hc, by rw [hd]; exact hu, ?_⟩
      intro e2 he2 hc2
      rw [hd]
      exact (fold_cercano_cota cx cy cat usados tracks none
        (fun m hm => by cases hm) e2 he2 hc2).2 m2 hm2
  · intro tracks cx cy cat usados h e he hc
    have hvacio : tracks.foldl (pasoCercano cx cy cat usados) none = none :=
      Option.map_eq_none'.mp h
    exact (fold_cercano_cota cx cy cat usados tracks none
      (fun m hm => by cases hm) e he hc).1 hvacio
  · intro s usados salida det hmatch hfresh
    have hnone : lookupTrack s.tracks s.siguiente_track_id = none :=
      lookupTrack_none_of_fresh s.tracks s.siguiente_track_id hfresh
    have hlknew : lookupTrack (s.tracks ++ [(s.siguiente_track_id,
        nuevoTrack s.siguiente_track_id det.categoria det.centro.1
          det.centro.2)]) s.siguiente_track_id =
        some (nuevoTrack s.siguiente_track_id det.categoria det.centro.1
          det.centro.2) :=
      lookupTrack_append_self s.tracks s.siguiente_track_id _ hnone
    simp only [procesarDeteccion, hmatch]
    rw [verificar_cruce_corto _ s.siguiente_track_id _ hlknew (by simp [nuevoTrack])]

/-- Witness for C5: a detection 500 px from the only track matches nothing
(bound instantiated) and spawns track 2 with the next ID bumped to 3. -/
theorem c5_emparejamiento_witness :
    umbralSq ≤ distDe 500 0 (1, trackEj "adulto" [(0, 0)]) ∧
    procesarDeteccion (estadoConTrack "adulto" [(0, 0)], [], [])
        { centro := (500, 0), categoria := "adulto" } =
      ({ estadoConTrack "adulto" [(0, 0)] with
            siguiente_track_id := 3
            tracks := (estadoConTrack "adulto" [(0, 0)]).tracks ++
              [(2, nuevoTrack 2 "adulto" 500 0)] },
        [2], [({ centro := (500, 0), categoria := "adulto" }, 2)]) := by
  have h1 := c5_emparejamiento.2.1 (estadoConTrack "adulto" [(0, 0)]).tracks
    500 0 "adulto" [] (by decide)
  have h2 := c5_emparejamiento.2.2 (estadoConTrack "adulto" [(0, 0)]) [] []
    { centro := (500, 0), categoria := "adulto" } (by decide)
    (by
      intro p hp
      rcases List.mem_singleton.mp hp with rfl
      decide)
  exact ⟨h1 (1, trackEj "adulto" [(0, 0)]) (by decide)
    ⟨by decide, by decide, by decide⟩, h2⟩

/-! ### Frame processing preserves unmatched tracks -/

theorem mem_modifyTrack_otros (l : List (Nat × TrackInfo)) (k : Nat)
    (f : TrackInfo → TrackInfo) (tid : Nat) (t : TrackInfo)
    (hmem : (tid, t) ∈ l) (hne : tid ≠ k) :
    (tid, t) ∈ modifyTrack l k f := by
  induction l with
  | nil => cases hmem
  | cons e rest ih =>
      by_cases hk : e.1 = k
      · rcases List.mem_cons.mp hmem with heq | hmem2
        · exfalso
          apply hne
          rw [← heq] at hk
          exact hk
        · simp only [modifyTrack, if_pos hk]
          exact List.mem_cons_of_mem _ hmem2
      · rcases List.mem_cons.mp hmem with heq | hmem2
        · rw [heq]
          simp only [modifyTrack, if_neg hk]
          exact List.mem_cons_self _ _
        · simp only [modifyTrack, if_neg hk]
          exact List.mem_cons_of_mem _ (ih hmem2)

theorem verificar_cruce_mem_otros (s : CounterState) (k tid : Nat) (t : TrackInfo)
    (hmem : (tid, t) ∈ s.tracks) (hne : tid ≠ k) :
    (tid, t) ∈ (verificar_cruce s k).tracks := by
  cases hlk : lookupTrack s.tracks k with
  | none =>
      rw [verificar_cruce_de_none s k hlk]
      exact hmem
  | some tk =>
      rcases verificar_cruce_casos s k tk hlk with he | he | ⟨_, d, lado, he⟩
      · rw [he]
        exact hmem
      · rw [he]
        show (tid, t) ∈ modifyTrack s.tracks k armarTrack
        exact mem_modifyTrack_otros _ _ _ _ _ hmem hne
      · rw [he]
        show (tid, t) ∈ modifyTrack (registrar_cruce s k d).tracks k
          (desarmarTrack lado)
        refine mem_modifyTrack_otros _ _ _ _ _ ?_ hne
        rw [registrar_cruce_tracks s k tk d hlk]
        exact mem_modifyTrack_otros _ _ _ _ _ hmem hne

theorem actualizar_track_mem_otros (s : CounterState) (k : Nat) (ct : String)
    (cx cy : Int) (tid : Nat) (t : TrackInfo)
    (hmem : (tid, t) ∈ s.tracks) (hne : tid ≠ k) :
    (tid, t) ∈ (actualizar_track s k ct cx cy).tracks := by
  cases hlk : lookupTrack s.tracks k with
  | none =>
      simp only [actualizar_track, hlk]
      exact List.mem_append_left _ hmem
  | some tk =>
      simp only [actualizar_track, hlk]
      exact mem_modifyTrack_otros _ _ _ _ _ hmem hne

theorem procesarDeteccion_usados (s : CounterState) (usados : List Nat)
    (salida : List (Deteccion × Nat)) (det : Deteccion) :
    ∃ k, (procesarDeteccion (s, usados, salida) det).2.1 = usados ++ [k] := by
  cases hm : encontrar_track_cercano s.tracks det.centro.1 det.centro.2
      det.categoria usados with
  | none => exact ⟨s.siguiente_track_id, by simp only [procesarDeteccion, hm]⟩
  | some k => exact ⟨k, by simp only [procesarDeteccion, hm]⟩

theorem procesarDeteccion_preserva (s : CounterState) (usados : List Nat)
    (salida : List (Deteccion × Nat)) (det : Deteccion) (tid : Nat)
    (t : TrackInfo) (hmem : (tid, t) ∈ s.tracks)
    (hnu : tid ∉ (procesarDeteccion (s, usados, salida) det).2.1) :
    (tid, t) ∈ (procesarDeteccion (s, usados, salida) det).1.tracks := by
  cases hm : encontrar_track_cercano s.tracks det.centro.1 det.centro.2
      det.categoria usados with
  | none =>
      have h21 : (procesarDeteccion (s, usados, salida) det).2.1 =
          usados ++ [s.siguiente_track_id] := by
        simp only [procesarDeteccion, hm]
      have hnu2 : tid ≠ s.siguiente_track_id := by
        intro h
        apply hnu
        rw [h21, h]
        exact List.mem_append_right _ (List.mem_singleton_self _)
      have h1 : (procesarDeteccion (s, usados, salida) det).1 =
          verificar_cruce
            { s with siguiente_track_id := s.siguiente_track_id + 1
                     tracks := s.tracks ++ [(s.siguiente_track_id,
                       nuevoTrack s.siguiente_track_id det.categoria
                         det.centro.1 det.centro.2)] }
            s.siguiente_track_id := by
        simp only [procesarDeteccion, hm]
      rw [h1]
      refine verificar_cruce_mem_otros _ _ _ _ ?_ hnu2
      exact List.mem_append_left _ hmem
  | some k =>
      have h21 : (procesarDeteccion (s, usados, salida) det).2.1 =
          usados ++ [k] := by
        simp only [procesarDeteccion, hm]
      have hnk : tid ≠ k := by
        intro h
        apply hnu
        rw [h21, h]
        exact List.mem_append_right _ (List.mem_singleton_self _)
      have h1 : (procesarDeteccion (s, usados, salida) det).1 =
          verificar_cruce (actualizar_track s k det.categoria det.centro.1
            det.centro.2) k := by
        simp only [procesarDeteccion, hm]
      rw [h1]
      exact verificar_cruce_mem_otros _ _ _ _
        (actualizar_track_mem_otros _ _ _ _ _ _ _ hmem hnk) hnk

theorem fold_procesar_usados_mono (dets : List Deteccion) :
    ∀ (acc : CounterState × List Nat × List (Deteccion × Nat)) (x : Nat),
    x ∈ acc.2.1 → x ∈ (dets.foldl procesarDeteccion acc).2.1 := by
  induction dets with
  | nil =>
      intro acc x h
      exact h
  | cons d rest ih =>
      intro acc x h
      rw [List.foldl_cons]
      apply ih
      obtain ⟨k, hk⟩ := procesarDeteccion_usados acc.1 acc.2.1 acc.2.2 d
      rw [hk]
      exact List.mem_append_left _ h

theorem fold_procesar_preserva (dets : List Deteccion) :
    ∀ (s : CounterState) (usados : List Nat) (salida : List (Deteccion × Nat))
      (tid : Nat) (t : TrackInfo),
    (tid, t) ∈ s.tracks →
    tid ∉ (dets.foldl procesarDeteccion (s, usados, salida)).2.1 →
    (tid, t) ∈ (dets.foldl procesarDeteccion (s, usados, salida)).1.tracks := by
  induction dets with
  | nil =>
      intro s usados salida tid t hmem _
      exact hmem
  | cons d rest ih =>
      intro s usados salida tid t hmem hnu
      rw [List.foldl_cons] at hnu ⊢
      have hnu1 : tid ∉ (procesarDeteccion (s, usados, salida) d).2.1 := by
        intro hin
        exact hnu (fold_procesar_usados_mono rest _ tid hin)
      have hstep := procesarDeteccion_preserva s usados salida d tid t hmem hnu1
      exact ih (procesarDeteccion (s, usados, salida) d).1
        (procesarDeteccion (s, usados, salida) d).2.1
        (procesarDeteccion (s, usados, salida) d).2.2 tid t hstep hnu

/-- C6: a track not matched in a (nonempty) frame is evicted exactly when its
`cruzado` flag is set; an unmatched never-crossed track is retained with its
record intact. -/
theorem c6_limpieza (s : CounterState) (dets : List Deteccion) (hne : dets ≠ [])
    (tid : Nat) (t : TrackInfo) (hmem : (tid, t) ∈ s.tracks)
    (hnu : tid ∉ tracksUsados s dets) :
    (t.cruzado = true → (tid, t) ∉ (procesar_detecciones s dets).1.tracks) ∧
    (t.cruzado = false → (tid, t) ∈ (procesar_detecciones s dets).1.tracks) := by
  have hproc : procesar_detecciones s dets = procesar_con_tracker_simple s dets := by
    simp [procesar_detecciones, hne]
  have htracks : (procesar_con_tracker_simple s dets).1.tracks =
      limpiar_tracks_antiguos
        (dets.foldl procesarDeteccion (s, [], [])).1.tracks
        (dets.foldl procesarDeteccion (s, [], [])).2.1 := rfl
  constructor
  · intro hcz hmem2
    rw [hproc] at hmem2
    rw [htracks] at hmem2
    have hp := (List.mem_filter.mp hmem2).2
    rw [hcz] at hp
    simp only [Bool.not_true, Bool.or_false] at hp
    exact hnu (of_decide_eq_true hp)
  · intro hcz
    rw [hproc, htracks]
    refine List.mem_filter.mpr ⟨?_, ?_⟩
    · exact fold_procesar_preserva dets s [] [] tid t hmem hnu
    · rw [hcz]
      simp

/-- A state for the C6 witness: track 1 has crossed, track 5 has not. -/
def estadoC6 : CounterState :=
  { estadoConTrack "adulto" [(0, 0)] with
      tracks := [(1, { trackEj "adulto" [(0, 0)] with cruzado := true }),
                 (5, { trackEj "adulto" [(40, 0)] with track_id := 5 })]
      siguiente_track_id := 6 }

/-- Witness for C6: a far-away detection matches nothing; the crossed track 1
is evicted, the never-crossed track 5 is retained. -/
theorem c6_limpieza_witness :
    ((1, { trackEj "adulto" [(0, 0)] with cruzado := true }) ∉
      (procesar_detecciones estadoC6
        [{ centro := (500, 0), categoria := "adulto" }]).1.tracks) ∧
    ((5, { trackEj "adulto" [(40, 0)] with track_id := 5 }) ∈
      (procesar_detecciones estadoC6
        [{ centro := (500, 0), categoria := "adulto" }]).1.tracks) := by
  have h1 := c6_limpieza estadoC6 [{ centro := (500, 0), categoria := "adulto" }]
    (by decide) 1 { trackEj "adulto" [(0, 0)] with cruzado := true }
    (by decide) (by decide)
  have h5 := c6_limpieza estadoC6 [{ centro := (500, 0), categoria := "adulto" }]
    (by decide) 5 { trackEj "adulto" [(40, 0)] with track_id := 5 }
    (by decide) (by decide)
  exact ⟨h1.1 rfl, h5.2 rfl⟩

/-! ### History bookkeeping: the 50-sample trim keeps the last two samples -/

theorem dropLast_drop_aux (l : List (Int × Int)) (n : Nat) (h : n + 1 < l.length) :
    (l.drop n).dropLast = l.dropLast.drop n := by
  rw [List.dropLast_eq_take, List.dropLast_eq_take, List.take_drop]
  have he : n + ((List.drop n l).length - 1) = l.length - 1 := by
    simp only [List.length_drop]
    omega
  rw [he]

theorem getLastD_drop_aux (l : List (Int × Int)) (n : Nat) (d : Int × Int)
    (h : n < l.length) : (l.drop n).getLastD d = l.getLastD d := by
  induction n generalizing l with
  | zero => rfl
  | succ k ih =>
      cases l with
      | nil => cases h
      | cons a rest =>
          simp only [List.drop_succ_cons]
          have hk : k < rest.length := by
            simp only [List.length_cons] at h
            omega
          rw [ih rest hk]
          cases rest with
          | nil => cases hk
          | cons b rs =>
              rw [List.getLastD_cons d a (b :: rs), List.getLastD_cons a b rs,
                List.getLastD_cons d b rs]

theorem recortar_ultima (h : List (Int × Int)) (hne : h ≠ []) :
    ultimaPos (recortar h) = ultimaPos h := by
  unfold recortar ultimaPos
  split
  · apply getLastD_drop_aux
    have : 0 < h.length := List.length_pos.mpr hne
    omega
  · rfl

theorem recortar_penultima (h : List (Int × Int)) (hlen : 2 ≤ h.length) :
    penultimaPos (recortar h) = penultimaPos h := by
  unfold recortar penultimaPos
  split
  · rename_i hgt
    rw [dropLast_drop_aux h (h.length - 50) (by omega)]
    apply getLastD_drop_aux
    rw [List.length_dropLast]
    omega
  · rfl

theorem recortar_len (h : List (Int × Int)) (hlen : 2 ≤ h.length) :
    2 ≤ (recortar h).length := by
  unfold recortar
  split
  · rw [List.length_drop]
    omega
  · exact hlen

theorem ultimaPos_concat (h : List (Int × Int)) (p : Int × Int) :
    ultimaPos (h ++ [p]) = p := by
  unfold ultimaPos
  exact List.getLastD_concat _ _ _

theorem penultimaPos_concat (h : List (Int × Int)) (p : Int × Int) :
    penultimaPos (h ++ [p]) = ultimaPos h := by
  unfold penultimaPos ultimaPos
  rw [List.dropLast_concat]

/-- The history effects of `_actualizar_track` on an existing track: the new
last sample is the supplied centroid, the penultimate one is the previous
last, and at least two samples remain after the 50-sample trim. -/
theorem avance_hist (t : TrackInfo) (cx cy : Int)
    (hne : t.historial_posiciones ≠ []) :
    (ultimaPos ((avanceTrack cx cy t).historial_posiciones)).1 = cx ∧
    (penultimaPos ((avanceTrack cx cy t).historial_posiciones)).1 =
      (ultimaPos t.historial_posiciones).1 ∧
    2 ≤ (avanceTrack cx cy t).historial_posiciones.length ∧
    (avanceTrack cx cy t).historial_posiciones ≠ [] := by
  have hlen : 2 ≤ (t.historial_posiciones ++ [(cx, cy)]).length := by
    rw [List.length_append]
    have : 0 < t.historial_posiciones.length := List.length_pos.mpr hne
    simp only [List.length_singleton]
    omega
  have hh : (avanceTrack cx cy t).historial_posiciones =
      recortar (t.historial_posiciones ++ [(cx, cy)]) := rfl
  refine ⟨?_, ?_, ?_, ?_⟩
  · rw [hh, recortar_ultima _ (by simp), ultimaPos_concat]
  · rw [hh, recortar_penultima _ hlen, penultimaPos_concat]
  · rw [hh]
    exact recortar_len _ hlen
  · rw [hh]
    have := recortar_len _ hlen
    intro hv
    rw [hv] at this
    simp at this

theorem actualizar_track_existente (s : CounterState) (tid : Nat) (cat : String)
    (cx cy : Int) (t : TrackInfo) (hlk : lookupTrack s.tracks tid = some t) :
    actualizar_track s tid cat cx cy =
      { s with tracks := modifyTrack s.tracks tid (avanceTrack cx cy) } ∧
    lookupTrack (actualizar_track s tid cat cx cy).tracks tid =
      some (avanceTrack cx cy t) := by
  have h1 : actualizar_track s tid cat cx cy =
      { s with tracks := modifyTrack s.tracks tid (avanceTrack cx cy) } := by
    simp [actualizar_track, hlk]
  refine ⟨h1, ?_⟩
  rw [h1]
  show lookupTrack (modifyTrack s.tracks tid (avanceTrack cx cy)) tid = _
  rw [lookupTrack_modifyTrack_self, hlk]
  rfl

theorem correrTrack_cons (s : CounterState) (tid : Nat) (cat : String)
    (p : Int × Int) (ps : List (Int × Int)) :
    correrTrack s tid cat (p :: ps) =
      correrTrack (pasoTrack s tid cat p) tid cat ps := rfl

/-- A pre-crossing step (both samples strictly left of the line): the gate
stays armed and no counter moves. -/
theorem pasoTrack_izq (s : CounterState) (tid : Nat) (cat : String)
    (t : TrackInfo) (cx cy : Int)
    (hlk : lookupTrack s.tracks tid = some t)
    (hne : t.historial_posiciones ≠ [])
    (hcat : t.categoria = cat)
    (hprev : (ultimaPos t.historial_posiciones).1 < s.linea_x)
    (hcur : cx < s.linea_x)
    (hpc : t.puede_cruzar = true) :
    ∃ t2, lookupTrack (pasoTrack s tid cat (cx, cy)).tracks tid = some t2 ∧
      t2.categoria = cat ∧ t2.puede_cruzar = true ∧
      t2.historial_posiciones ≠ [] ∧
      (ultimaPos t2.historial_posiciones).1 = cx ∧
      (pasoTrack s tid cat (cx, cy)).contadores = s.contadores ∧
      (pasoTrack s tid cat (cx, cy)).linea_x = s.linea_x := by
  obtain ⟨hseq, hlk1⟩ := actualizar_track_existente s tid cat cx cy t hlk
  obtain ⟨hult, hpen, hlen2, hne1⟩ := avance_hist t cx cy hne
  have hlin : (actualizar_track s tid cat cx cy).linea_x = s.linea_x := by
    rw [hseq]
  have hcon : (actualizar_track s tid cat cx cy).contadores = s.contadores := by
    rw [hseq]
  have hn1 : ¬((penultimaPos (avanceTrack cx cy t).historial_posiciones).1 <
      (actualizar_track s tid cat cx cy).linea_x ∧
      (actualizar_track s tid cat cx cy).linea_x ≤
      (ultimaPos (avanceTrack cx cy t).historial_posiciones).1) := by
    rw [hlin, hult]
    intro hg
    omega
  have hn2 : ¬((actualizar_track s tid cat cx cy).linea_x <
      (penultimaPos (avanceTrack cx cy t).historial_posiciones).1 ∧
      (ultimaPos (avanceTrack cx cy t).historial_posiciones).1 ≤
      (actualizar_track s tid cat cx cy).linea_x) := by
    rw [hlin, hpen]
    intro hg
    omega
  rw [show pasoTrack s tid cat (cx, cy) =
    verificar_cruce (actualizar_track s tid cat cx cy) tid from rfl]
  by_cases hfar : (actualizar_track s tid cat cx cy).margen_cruce <
      ((ultimaPos (avanceTrack cx cy t).historial_posiciones).1 -
        (actualizar_track s tid cat cx cy).linea_x).natAbs
  · rw [verificar_cruce_rearme _ tid _ hlk1 hlen2 hn1 hn2 hfar]
    refine ⟨armarTrack (avanceTrack cx cy t), ?_, hcat, rfl, hne1, hult, hcon, hlin⟩
    show lookupTrack (modifyTrack (actualizar_track s tid cat cx cy).tracks tid
      armarTrack) tid = _
    rw [lookupTrack_modifyTrack_self, hlk1]
    rfl
  · rw [verificar_cruce_cerca _ tid _ hlk1 hlen2 hn1 hn2 hfar]
    exact ⟨avanceTrack cx cy t, hlk1, hcat, by
      show (avanceTrack cx cy t).puede_cruzar = true
      exact hpc, hne1, hult, hcon, hlin⟩

/-- The crossing step (previous sample strictly left, current at or right of
the line, gate armed): exactly the (category, izq_der) cell is bumped. -/
theorem pasoTrack_cruce (s : CounterState) (tid : Nat) (cat : String)
    (t : TrackInfo) (cx cy : Int)
    (hlk : lookupTrack s.tracks tid = some t)
    (hne : t.historial_posiciones ≠ [])
    (hcat : t.categoria = cat)
    (hprev : (ultimaPos t.historial_posiciones).1 < s.linea_x)
    (hcur : s.linea_x ≤ cx)
    (hpc : t.puede_cruzar = true)
    (hsome : (lookupC s.contadores cat).isSome) :
    ∃ t2, lookupTrack (pasoTrack s tid cat (cx, cy)).tracks tid = some t2 ∧
      t2.categoria = cat ∧ t2.historial_posiciones ≠ [] ∧
      (ultimaPos t2.historial_posiciones).1 = cx ∧
      (pasoTrack s tid cat (cx, cy)).contadores =
        incContador s.contadores cat Direccion.izqDer ∧
      (pasoTrack s tid cat (cx, cy)).linea_x = s.linea_x := by
  obtain ⟨hseq, hlk1⟩ := actualizar_track_existente s tid cat cx cy t hlk
  obtain ⟨hult, hpen, hlen2, hne1⟩ := avance_hist t cx cy hne
  have hlin : (actualizar_track s tid cat cx cy).linea_x = s.linea_x := by
    rw [hseq]
  have hcon : (actualizar_track s tid cat cx cy).contadores = s.contadores := by
    rw [hseq]
  have h1 : (penultimaPos (avanceTrack cx cy t).historial_posiciones).1 <
      (actualizar_track s tid cat cx cy).linea_x := by
    rw [hlin, hpen]
    exact hprev
  have h2 : (actualizar_track s tid cat cx cy).linea_x ≤
      (ultimaPos (avanceTrack cx cy t).historial_posiciones).1 := by
    rw [hlin, hult]
    exact hcur
  have hpc1 : (avanceTrack cx cy t).puede_cruzar = true := hpc
  rw [show pasoTrack s tid cat (cx, cy) =
    verificar_cruce (actualizar_track s tid cat cx cy) tid from rfl]
  rw [verificar_cruce_eq_lr _ tid _ hlk1 hlen2 h1 h2 hpc1]
  have hconreg := registrar_cruce_contadores (actualizar_track s tid cat cx cy)
    tid (avanceTrack cx cy t) Direccion.izqDer hlk1
  have hcatav : (avanceTrack cx cy t).categoria = cat := hcat
  rw [hcatav, hcon] at hconreg
  rw [if_pos hsome] at hconreg
  refine ⟨desarmarTrack "derecha" (sellarCruce Direccion.izqDer (avanceTrack cx cy t)),
    ?_, hcat, hne1, hult, ?_, ?_⟩
  · show lookupTrack (modifyTrack
      (registrar_cruce (actualizar_track s tid cat cx cy) tid Direccion.izqDer).tracks
      tid (desarmarTrack "derecha")) tid = _
    rw [lookupTrack_modifyTrack_self,
      registrar_cruce_tracks _ tid _ Direccion.izqDer hlk1,
      lookupTrack_modifyTrack_self, hlk1]
    rfl
  · show (registrar_cruce (actualizar_track s tid cat cx cy) tid
      Direccion.izqDer).contadores = _
    rw [hconreg]
  · show (registrar_cruce (actualizar_track s tid cat cx cy) tid
      Direccion.izqDer).linea_x = _
    rw [(registrar_cruce_resto (actualizar_track s tid cat cx cy) tid
      Direccion.izqDer).1, hlin]

/-- A post-crossing step with nondecreasing samples at or right of the line:
no counter moves and the centroid stays at or right of the line. -/
theorem pasoTrack_der (s : CounterState) (tid : Nat) (cat : String)
    (t : TrackInfo) (cx cy : Int)
    (hlk : lookupTrack s.tracks tid = some t)
    (hne : t.historial_posiciones ≠ [])
    (hprev : s.linea_x ≤ (ultimaPos t.historial_posiciones).1)
    (hcur : (ultimaPos t.historial_posiciones).1 ≤ cx) :
    ∃ t2, lookupTrack (pasoTrack s tid cat (cx, cy)).tracks tid = some t2 ∧
      t2.categoria = t.categoria ∧ t2.historial_posiciones ≠ [] ∧
      (ultimaPos t2.historial_posiciones).1 = cx ∧
      (pasoTrack s tid cat (cx, cy)).contadores = s.contadores ∧
      (pasoTrack s tid cat (cx, cy)).linea_x = s.linea_x := by
  obtain ⟨hseq, hlk1⟩ := actualizar_track_existente s tid cat cx cy t hlk
  obtain ⟨hult, hpen, hlen2, hne1⟩ := avance_hist t cx cy hne
  have hlin : (actualizar_track s tid cat cx cy).linea_x = s.linea_x := by
    rw [hseq]
  have hcon : (actualizar_track s tid cat cx cy).contadores = s.contadores := by
    rw [hseq]
  have hn1 : ¬((penultimaPos (avanceTrack cx cy t).historial_posiciones).1 <
      (actualizar_track s tid cat cx cy).linea_x ∧
      (actualizar_track s tid cat cx cy).linea_x ≤
      (ultimaPos (avanceTrack cx cy t).historial_posiciones).1) := by
    rw [hlin, hpen]
    intro hg
    omega
  have hn2 : ¬((actualizar_track s tid cat cx cy).linea_x <
      (penultimaPos (avanceTrack cx cy t).historial_posiciones).1 ∧
      (ultimaPos (avanceTrack cx cy t).historial_posiciones).1 ≤
      (actualizar_track s tid cat cx cy).linea_x) := by
    rw [hlin, hpen, hult]
    intro hg
    omega
  rw [show pasoTrack s tid cat (cx, cy) =
    verificar_cruce (actualizar_track s tid cat cx cy) tid from rfl]
  by_cases hfar : (actualizar_track s tid cat cx cy).margen_cruce <
      ((ultimaPos (avanceTrack cx cy t).historial_posiciones).1 -
        (actualizar_track s tid cat cx cy).linea_x).natAbs
  · rw [verificar_cruce_rearme _ tid _ hlk1 hlen2 hn1 hn2 hfar]
    refine ⟨armarTrack (avanceTrack cx cy t), ?_, rfl, hne1, hult, hcon, hlin⟩
    show lookupTrack (modifyTrack (actualizar_track s tid cat cx cy).tracks tid
      armarTrack) tid = _
    rw [lookupTrack_modifyTrack_self, hlk1]
    rfl
  · rw [verificar_cruce_cerca _ tid _ hlk1 hlen2 hn1 hn2 hfar]
    exact ⟨avanceTrack cx cy t, hlk1, rfl, hne1, hult, hcon, hlin⟩

/-- After the line has been reached, nondecreasing samples never change any
counter again. -/
theorem correr_despues (tid : Nat) (cat : String) (ps : List (Int × Int)) :
    ∀ (s : CounterState) (t : TrackInfo),
    lookupTrack s.tracks tid = some t →
    t.historial_posiciones ≠ [] →
    s.linea_x ≤ (ultimaPos t.historial_posiciones).1 →
    List.Chain' (· ≤ ·) ((ultimaPos t.historial_posiciones).1 :: ps.map Prod.fst) →
    (correrTrack s tid cat ps).contadores = s.contadores := by
  induction ps with
  | nil =>
      intro s t _ _ _ _
      rfl
  | cons p rest ih =>
      intro s t hlk hne hline hchain
      obtain ⟨px, py⟩ := p
      rw [List.map_cons, List.chain'_cons] at hchain
      obtain ⟨hab, hchain2⟩ := hchain
      obtain ⟨t2, hlk2, hcat2, hne2, hlast2, hcon2, hlin2⟩ :=
        pasoTrack_der s tid cat t px py hlk hne hline hab
      rw [correrTrack_cons]
      rw [ih (pasoTrack s tid cat (px, py)) t2 hlk2 hne2
        (by rw [hlast2, hlin2]; exact le_trans hline hab)
        (by rw [hlast2]; exact hchain2)]
      exact hcon2

/-- From strictly left of the line with the gate armed, a nondecreasing run
bumps the izq_der cell exactly when some sample reaches the line, and exactly
once. -/
theorem correr_antes (tid : Nat) (cat : String) (ps : List (Int × Int)) :
    ∀ (s : CounterState) (t : TrackInfo),
    lookupTrack s.tracks tid = some t →
    t.historial_posiciones ≠ [] →
    (ultimaPos t.historial_posiciones).1 < s.linea_x →
    t.puede_cruzar = true →
    t.categoria = cat →
    (lookupC s.contadores cat).isSome →
    List.Chain' (· ≤ ·) ((ultimaPos t.historial_posiciones).1 :: ps.map Prod.fst) →
    (correrTrack s tid cat ps).contadores =
      if ∃ x ∈ ps.map Prod.fst, s.linea_x ≤ x then
        incContador s.contadores cat Direccion.izqDer
      else s.contadores := by
  induction ps with
  | nil =>
      intro s t _ _ _ _ _ _ _
      rw [if_neg]
      · rfl
      · rintro ⟨x, hx, -⟩
        simp at hx
  | cons p rest ih =>
      intro s t hlk hne hlast hpc hcat hsome hchain
      obtain ⟨px, py⟩ := p
      rw [List.map_cons, List.chain'_cons] at hchain
      obtain ⟨hab, hchain2⟩ := hchain
      rw [correrTrack_cons]
      by_cases hcross : s.linea_x ≤ px
      · obtain ⟨t2, hlk2, hcat2, hne2, hlast2, hcon2, hlin2⟩ :=
          pasoTrack_cruce s tid cat t px py hlk hne hcat hlast hcross hpc hsome
        rw [correr_despues tid cat rest (pasoTrack s tid cat (px, py)) t2 hlk2 hne2
          (by rw [hlast2, hlin2]; exact hcross) (by rw [hlast2]; exact hchain2)]
        rw [hcon2]
        rw [if_pos ⟨px, by simp, hcross⟩]
      · have hcur : px < s.linea_x := not_le.mp hcross
        obtain ⟨t2, hlk2, hcat2, hpc2, hne2, hlast2, hcon2, hlin2⟩ :=
          pasoTrack_izq s tid cat t px py hlk hne hcat hlast hcur hpc
        have hrec := ih (pasoTrack s tid cat (px, py)) t2 hlk2 hne2
          (by rw [hlast2, hlin2]; exact hcur) hpc2 hcat2
          (by rw [hcon2]; exact hsome)
          (by rw [hlast2]; exact hchain2)
        rw [hrec, hcon2, hlin2]
        have hiff : (∃ x ∈ (px, py).1 :: rest.map Prod.fst, s.linea_x ≤ x) ↔
            (∃ x ∈ rest.map Prod.fst, s.linea_x ≤ x) := by
          constructor
          · rintro ⟨x, hx, hle⟩
            rcases List.mem_cons.mp hx with rfl | hx2
            · exact absurd hle (not_le.mpr hcur)
            · exact ⟨x, hx2, hle⟩
          · rintro ⟨x, hx, hle⟩
            exact ⟨x, List.mem_cons_of_mem _ hx, hle⟩
        rw [List.map_cons, if_congr hiff rfl rfl]

/-- C2: for a fresh track whose centroid samples move monotonically from
strictly left of the line to strictly right of it and then beyond the
margin, processing the samples in order (update, then crossing check, as
both tracker paths do) increments the (category, izq_der) cell exactly once
and changes no other counter cell. -/
theorem c2_un_solo_cruce (s : CounterState) (tid : Nat) (cat : String)
    (c0 : Nat × Nat) (p0 : Int × Int) (rest : List (Int × Int))
    (hfresh : lookupTrack s.tracks tid = none)
    (hcat : lookupC s.contadores cat = some c0)
    (hmono : List.Chain' (· ≤ ·) ((p0 :: rest).map Prod.fst))
    (hstart : p0.1 < s.linea_x)
    (hcross : ∃ x ∈ (p0 :: rest).map Prod.fst, s.linea_x < x)
    (hfar : s.linea_x + (s.margen_cruce : Int) < (ultimaPos (p0 :: rest)).1) :
    (contadorDe (correrTrack s tid cat (p0 :: rest)) cat).1 = c0.1 + 1 ∧
    (contadorDe (correrTrack s tid cat (p0 :: rest)) cat).2 = c0.2 ∧
    ∀ c : String, c ≠ cat →
      contadorDe (correrTrack s tid cat (p0 :: rest)) c = contadorDe s c := by
  obtain ⟨px, py⟩ := p0
  have htr : actualizar_track s tid cat px py =
      { s with tracks := s.tracks ++ [(tid, nuevoTrack tid cat px py)] } := by
    simp [actualizar_track, hfresh]
  have hlk1 : lookupTrack (actualizar_track s tid cat px py).tracks tid =
      some (nuevoTrack tid cat px py) := by
    rw [htr]
    exact lookupTrack_append_self _ _ _ hfresh
  have hpaso : pasoTrack s tid cat (px, py) =
      { s with tracks := s.tracks ++ [(tid, nuevoTrack tid cat px py)] } := by
    rw [show pasoTrack s tid cat (px, py) =
      verificar_cruce (actualizar_track s tid cat px py) tid from rfl]
    rw [verificar_cruce_corto _ tid _ hlk1 (by simp [nuevoTrack])]
    exact htr
  have hsome : (lookupC s.contadores cat).isSome := by
    rw [hcat]
    rfl
  rw [List.map_cons] at hmono hcross
  have hmain := correr_antes tid cat rest (pasoTrack s tid cat (px, py))
    (nuevoTrack tid cat px py)
    (by rw [hpaso]; exact lookupTrack_append_self _ _ _ hfresh)
    (by simp [nuevoTrack])
    (by rw [hpaso]; exact hstart)
    rfl rfl
    (by rw [hpaso]; exact hsome)
    (by exact hmono)
  simp only [hpaso] at hmain
  have hcond : ∃ x ∈ rest.map Prod.fst, s.linea_x ≤ x := by
    obtain ⟨x, hx, hlt⟩ := hcross
    rcases List.mem_cons.mp hx with rfl | hx2
    · exact absurd hstart (by omega)
    · exact ⟨x, hx2, le_of_lt hlt⟩
  rw [if_pos hcond] at hmain
  rw [correrTrack_cons]
  have hfinal : contadorDe (correrTrack (pasoTrack s tid cat (px, py)) tid cat rest)
      cat = (c0.1 + 1, c0.2) := by
    unfold contadorDe
    rw [hpaso, hmain, lookupC_incContador_lr, hcat]
    rfl
  refine ⟨by rw [hfinal], by rw [hfinal], ?_⟩
  intro c hc
  unfold contadorDe
  rw [hpaso, hmain, lookupC_incContador_ne _ _ _ _ hc]

/-- A counter with no tracks, line at 150, margin 30, for the C2 witness. -/
def estadoVacio : CounterState :=
  { estadoConTrack "adulto" [(0, 0)] with tracks := [], siguiente_track_id := 1 }

/-- Witness for C2: the run 100, 140, 160, 200 over the line at 150 with
margin 30 counts one izq_der crossing for "adulto" and nothing else. -/
theorem c2_un_solo_cruce_witness :
    (contadorDe (correrTrack estadoVacio 1 "adulto"
      [(100, 0), (140, 0), (160, 0), (200, 0)]) "adulto").1 = 1 ∧
    (contadorDe (correrTrack estadoVacio 1 "adulto"
      [(100, 0), (140, 0), (160, 0), (200, 0)]) "adulto").2 = 0 ∧
    contadorDe (correrTrack estadoVacio 1 "adulto"
      [(100, 0), (140, 0), (160, 0), (200, 0)]) "nino" = (0, 0) := by
  have h := c2_un_solo_cruce estadoVacio 1 "adulto" (0, 0) (100, 0)
    [(140, 0), (160, 0), (200, 0)] (by decide) (by decide)
    (by simp [List.chain'_cons]) (by decide)
    ⟨160, by decide, by decide⟩ (by decide)
  exact ⟨h.1, h.2.1, h.2.2 "nino" (by decide)⟩

end YoloConteo
